import Mathlib

/-!
Verification of the trailing-zero-removal benchmark (`source/main.cpp`).

The C++ code is shallowly embedded over `Nat`: every W-bit unsigned value is a
natural number below `2^W`, and every operation that can wrap in C++ carries an
explicit `% 2^W`.  The unbounded `while` loops of the C++ algorithms are
embedded as fuel-indexed recursions returning `Option`: `none` means the loop
did not exit within the given fuel (the fixed fuel `40` strictly exceeds the
iteration count of every loop on every input the theorems below quantify over,
so `some` results are exactly the values the C++ code returns).
-/

namespace wuint

def umul64 (x y : Nat) : Nat := (x * y) % 2 ^ 64

def umul128_generic (x y : Nat) : Nat × Nat :=
  let a := (x >>> 32) % 2 ^ 32
  let b := x % 2 ^ 32
  let c := (y >>> 32) % 2 ^ 32
  let d := y % 2 ^ 32
  let ac := umul64 a c
  let bc := umul64 b c
  let ad := umul64 a d
  let bd := umul64 b d
  let intermediate := ((bd >>> 32) + ad % 2 ^ 32 + bc % 2 ^ 32) % 2 ^ 64
  ((ac + (intermediate >>> 32) + (ad >>> 32) + (bc >>> 32)) % 2 ^ 64,
   (((intermediate <<< 32) % 2 ^ 64) + bd % 2 ^ 32) % 2 ^ 64)

def umul128_builtin (x y : Nat) : Nat × Nat :=
  (((x * y) >>> 64) % 2 ^ 64, (x * y) % 2 ^ 64)

def umul128 (x y : Nat) : Nat × Nat := umul128_builtin x y

end wuint

def compute_power_aux (W : Nat) : Nat → Nat → Nat → Nat → Nat
  | 0, result, _, _ => result
  | fuel + 1, result, a, k =>
    if k = 0 then result
    else compute_power_aux W fuel (if k % 2 ≠ 0 then (result * a) % 2 ^ W else result)
      ((a * a) % 2 ^ W) (k / 2)

def compute_power (W a k : Nat) : Nat := compute_power_aux W k 1 a k

def generate_sample (W t L : Nat) : Nat := (L * compute_power W 10 t) % 2 ^ W

def sample_draw_valid (W maxDigits d t L : Nat) : Prop :=
  1 ≤ d ∧ d ≤ maxDigits ∧ t ≤ d - 1 ∧
    compute_power W 10 (d - t - 1) ≤ L ∧ L ≤ compute_power W 10 (d - t) - 1

def rotr (w n r : Nat) : Nat :=
  let s := r &&& (w - 1)
  (n >>> s) ||| ((n <<< ((w - s) &&& (w - 1))) % 2 ^ w)

def genLoop (step : Nat → Option Nat) (stride : Nat) : Nat → Nat → Nat → Option (Nat × Nat)
  | 0, _, _ => none
  | fuel + 1, n, s =>
    match step n with
    | some q => genLoop step stride fuel q (s + stride)
    | none => some (n, s)

def finalCheck (step : Nat → Option Nat) : Option (Nat × Nat) → Option (Nat × Nat)
  | none => none
  | some (n, s) =>
    match step n with
    | some q => some (q, s + 1)
    | none => some (n, s)

namespace alg32

def naive_step (n : Nat) : Option Nat :=
  if n % 10 = 0 then some (n / 10) else none

def naive_step100 (n : Nat) : Option Nat :=
  if n % 100 = 0 then some (n / 100) else none

def granlund_montgomery_step (n : Nat) : Option Nat :=
  let r := rotr 32 ((n * 3435973837) % 2 ^ 32) 1
  if r < 429496730 then some r else none

def granlund_montgomery_step100 (n : Nat) : Option Nat :=
  let r := rotr 32 ((n * 3264175145) % 2 ^ 32) 2
  if r < 42949673 then some r else none

def lemire_step (n : Nat) : Option Nat :=
  let r := (n * 429496730) % 2 ^ 64
  if r % 2 ^ 32 < 429496730 then some ((r >>> 32) % 2 ^ 32) else none

def lemire_step100 (n : Nat) : Option Nat :=
  let r := (n * 42949673) % 2 ^ 64
  if r % 2 ^ 32 < 42949673 then some ((r >>> 32) % 2 ^ 32) else none

def generalized_granlund_montgomery_step (n : Nat) : Option Nat :=
  let r := (n * 1288490189) % 2 ^ 32
  if r < 429496731 then some (r >>> 1) else none

def generalized_granlund_montgomery_step100 (n : Nat) : Option Nat :=
  let r := (n * 42949673) % 2 ^ 32
  if r < 42949673 then some (r >>> 2) else none

def naive (n : Nat) : Option (Nat × Nat) := genLoop naive_step 1 40 n 0

def naive_2_1 (n : Nat) : Option (Nat × Nat) :=
  finalCheck naive_step (genLoop naive_step100 2 40 n 0)

def granlund_montgomery (n : Nat) : Option (Nat × Nat) :=
  genLoop granlund_montgomery_step 1 40 n 0

def granlund_montgomery_2_1 (n : Nat) : Option (Nat × Nat) :=
  finalCheck granlund_montgomery_step (genLoop granlund_montgomery_step100 2 40 n 0)

def lemire (n : Nat) : Option (Nat × Nat) := genLoop lemire_step 1 40 n 0

def lemire_2_1 (n : Nat) : Option (Nat × Nat) :=
  finalCheck lemire_step (genLoop lemire_step100 2 40 n 0)

def generalized_granlund_montgomery (n : Nat) : Option (Nat × Nat) :=
  genLoop generalized_granlund_montgomery_step 1 40 n 0

def generalized_granlund_montgomery_2_1 (n : Nat) : Option (Nat × Nat) :=
  finalCheck generalized_granlund_montgomery_step
    (genLoop generalized_granlund_montgomery_step100 2 40 n 0)

def baseline (n : Nat) : Option (Nat × Nat) := some (n, 0)

end alg32

namespace alg64

def naive_step (n : Nat) : Option Nat :=
  if n % 10 = 0 then some (n / 10) else none

def naive_step100 (n : Nat) : Option Nat :=
  if n % 100 = 0 then some (n / 100) else none

def granlund_montgomery_step (n : Nat) : Option Nat :=
  let r := rotr 64 ((n * 14757395258967641293) % 2 ^ 64) 1
  if r < 1844674407370955162 then some r else none

def granlund_montgomery_step100 (n : Nat) : Option Nat :=
  let r := rotr 64 ((n * 10330176681277348905) % 2 ^ 64) 2
  if r < 184467440737095517 then some r else none

def lemire_step (n : Nat) : Option Nat :=
  let r := wuint.umul128 n 1844674407370955162
  if r.2 < 1844674407370955162 then some r.1 else none

def lemire_step100 (n : Nat) : Option Nat :=
  let r := wuint.umul128 n 184467440737095517
  if r.2 < 184467440737095517 then some r.1 else none

def generalized_granlund_montgomery_step (n : Nat) : Option Nat :=
  let r := (n * 5534023222112865485) % 2 ^ 64
  if r < 1844674407370955163 then some (r >>> 1) else none

def generalized_granlund_montgomery_step100 (n : Nat) : Option Nat :=
  let r := (n * 14941862699704736809) % 2 ^ 64
  if r < 184467440737095517 then some (r >>> 2) else none

def naive (n : Nat) : Option (Nat × Nat) := genLoop naive_step 1 40 n 0

def naive_2_1 (n : Nat) : Option (Nat × Nat) :=
  finalCheck naive_step (genLoop naive_step100 2 40 n 0)

def naive_8_2_1_branch (n : Nat) : Bool := decide (n % 100000000 = 0)

def naive_8_2_1_delegate (n : Nat) : Nat := (n / 100000000) % 2 ^ 32

def naive_8_2_1 (n : Nat) : Option (Nat × Nat) :=
  if naive_8_2_1_branch n then
    match alg32.naive_2_1 (naive_8_2_1_delegate n) with
    | some (m, s) => some (m % 2 ^ 64, s + 8)
    | none => none
  else finalCheck naive_step (genLoop naive_step100 2 40 n 0)

def granlund_montgomery (n : Nat) : Option (Nat × Nat) :=
  genLoop granlund_montgomery_step 1 40 n 0

def granlund_montgomery_2_1 (n : Nat) : Option (Nat × Nat) :=
  finalCheck granlund_montgomery_step (genLoop granlund_montgomery_step100 2 40 n 0)

def granlund_montgomery_8_2_1_branch (n : Nat) : Bool :=
  decide (rotr 64 ((n * 28999941890838049) % 2 ^ 64) 8 < 184467440738)

def granlund_montgomery_8_2_1_delegate (n : Nat) : Nat :=
  (rotr 64 ((n * 28999941890838049) % 2 ^ 64) 8) % 2 ^ 32

def granlund_montgomery_8_2_1 (n : Nat) : Option (Nat × Nat) :=
  if granlund_montgomery_8_2_1_branch n then
    match alg32.granlund_montgomery_2_1 (granlund_montgomery_8_2_1_delegate n) with
    | some (m, s) => some (m % 2 ^ 64, s + 8)
    | none => none
  else finalCheck granlund_montgomery_step (genLoop granlund_montgomery_step100 2 40 n 0)

def lemire (n : Nat) : Option (Nat × Nat) := genLoop lemire_step 1 40 n 0

def lemire_2_1 (n : Nat) : Option (Nat × Nat) :=
  finalCheck lemire_step (genLoop lemire_step100 2 40 n 0)

def lemire_8_2_1_branch (n : Nat) : Bool :=
  let r := wuint.umul128 n 12089258196146292
  decide (r.1 &&& ((1 <<< (80 - 64)) - 1) = 0 ∧ r.2 < 12089258196146292)

def lemire_8_2_1_delegate (n : Nat) : Nat :=
  ((wuint.umul128 n 12089258196146292).1 >>> (80 - 64)) % 2 ^ 32

def lemire_8_2_1 (n : Nat) : Option (Nat × Nat) :=
  if lemire_8_2_1_branch n then
    match alg32.lemire_2_1 (lemire_8_2_1_delegate n) with
    | some (m, s) => some (m % 2 ^ 64, s + 8)
    | none => none
  else finalCheck lemire_step (genLoop lemire_step100 2 40 n 0)

def generalized_granlund_montgomery (n : Nat) : Option (Nat × Nat) :=
  genLoop generalized_granlund_montgomery_step 1 40 n 0

def generalized_granlund_montgomery_2_1 (n : Nat) : Option (Nat × Nat) :=
  finalCheck generalized_granlund_montgomery_step
    (genLoop generalized_granlund_montgomery_step100 2 40 n 0)

def generalized_granlund_montgomery_8_2_1_branch (n : Nat) : Bool :=
  decide ((n * 28999941890838049) % 2 ^ 64 < 184467440969)

def generalized_granlund_montgomery_8_2_1_delegate (n : Nat) : Nat :=
  (((n * 28999941890838049) % 2 ^ 64) >>> 8) % 2 ^ 32

def generalized_granlund_montgomery_8_2_1 (n : Nat) : Option (Nat × Nat) :=
  if generalized_granlund_montgomery_8_2_1_branch n then
    match alg32.generalized_granlund_montgomery_2_1
        (generalized_granlund_montgomery_8_2_1_delegate n) with
    | some (m, s) => some (m % 2 ^ 64, s + 8)
    | none => none
  else
    finalCheck generalized_granlund_montgomery_step
      (genLoop generalized_granlund_montgomery_step100 2 40 n 0)

def baseline (n : Nat) : Option (Nat × Nat) := some (n, 0)

end alg64

def family32nb : List (Nat → Option (Nat × Nat)) :=
  [alg32.naive, alg32.granlund_montgomery, alg32.lemire,
   alg32.generalized_granlund_montgomery, alg32.naive_2_1,
   alg32.granlund_montgomery_2_1, alg32.lemire_2_1,
   alg32.generalized_granlund_montgomery_2_1]

def family64nb : List (Nat → Option (Nat × Nat)) :=
  [alg64.naive, alg64.granlund_montgomery, alg64.lemire,
   alg64.generalized_granlund_montgomery, alg64.naive_2_1,
   alg64.granlund_montgomery_2_1, alg64.lemire_2_1,
   alg64.generalized_granlund_montgomery_2_1, alg64.naive_8_2_1,
   alg64.granlund_montgomery_8_2_1, alg64.lemire_8_2_1,
   alg64.generalized_granlund_montgomery_8_2_1]

def candidates32 : List (String × (Nat → Option (Nat × Nat))) :=
  [("Null (baseline)", alg32.baseline),
   ("Naive", alg32.naive),
   ("Granlund-Montgomery", alg32.granlund_montgomery),
   ("Lemire", alg32.lemire),
   ("Generalized Granlund-Montgomery", alg32.generalized_granlund_montgomery),
   ("Naive 2-1", alg32.naive_2_1),
   ("Granlund-Montgomery 2-1", alg32.granlund_montgomery_2_1),
   ("Lemire 2-1", alg32.lemire_2_1),
   ("Generalized Granlund-Montgomery 2-1", alg32.generalized_granlund_montgomery_2_1)]

def candidates64 : List (String × (Nat → Option (Nat × Nat))) :=
  [("Null (baseline)", alg64.baseline),
   ("Naive", alg64.naive),
   ("Granlund-Montgomery", alg64.granlund_montgomery),
   ("Lemire", alg64.lemire),
   ("Generalized Granlund-Montgomery", alg64.generalized_granlund_montgomery),
   ("Naive 2-1", alg64.naive_2_1),
   ("Granlund-Montgomery 2-1", alg64.granlund_montgomery_2_1),
   ("Lemire 2-1", alg64.lemire_2_1),
   ("Generalized Granlund-Montgomery 2-1", alg64.generalized_granlund_montgomery_2_1),
   ("Naive 8-2-1", alg64.naive_8_2_1),
   ("Granlund-Montgomery 8-2-1", alg64.granlund_montgomery_8_2_1),
   ("Lemire 8-2-1", alg64.lemire_8_2_1),
   ("Generalized Granlund-Montgomery 8-2-1", alg64.generalized_granlund_montgomery_8_2_1)]

def run_check (cands : List (String × (Nat → Option (Nat × Nat)))) (samples : List Nat) :
    Option Nat :=
  samples.find? fun sample =>
    match cands with
    | _ :: ref :: rest => rest.any fun c => decide (c.2 sample ≠ ref.2 sample)
    | _ => false

def error_report (cands : List (String × (Nat → Option (Nat × Nat)))) (sample : Nat) :
    List (String × Option (Nat × Nat)) :=
  (cands.drop 1).map fun c => (c.1, c.2 sample)

def benchmark_model (cands : List (String × (Nat → Option (Nat × Nat)))) (samples : List Nat) :
    Option (List (String × Option (Nat × Nat))) × Bool :=
  match run_check cands samples with
  | some sample => (some (error_report cands sample), false)
  | none => (none, true)

def main_model (samples32 samples64 : List Nat) :
    (Option (List (String × Option (Nat × Nat))) × Bool) ×
      (Option (List (String × Option (Nat × Nat))) × Bool) × Nat :=
  (benchmark_model candidates32 samples32, benchmark_model candidates64 samples64, 0)

def dCountAux (d : Nat) : Nat → Nat → Nat
  | 0, _ => 0
  | fuel + 1, n => if 2 ≤ d ∧ n ≠ 0 ∧ n % d = 0 then dCountAux d fuel (n / d) + 1 else 0

def dCount (d n : Nat) : Nat := dCountAux d n n

def tz (n : Nat) : Nat := dCount 10 n

def rtz (n : Nat) : Nat × Nat := (n / 10 ^ tz n, tz n)

def naive32_loop_diverges_at_zero : Prop :=
  ∀ fuel s, genLoop alg32.naive_step 1 fuel 0 s = none

/-! ## Trailing-zero counting -/

theorem dCountAux_spec (d : Nat) (hd : 2 ≤ d) :
    ∀ fuel n, 1 ≤ n → n ≤ fuel →
      d ^ dCountAux d fuel n ∣ n ∧ ¬ d ∣ n / d ^ dCountAux d fuel n := by
  intro fuel
  induction fuel with
  | zero => intro n h1 h2; omega
  | succ fuel ih =>
    intro n h1 h2
    by_cases hdvd : n % d = 0
    · have hguard : 2 ≤ d ∧ n ≠ 0 ∧ n % d = 0 := ⟨hd, by omega, hdvd⟩
      rw [dCountAux, if_pos hguard]
      have hdn : d ∣ n := Nat.dvd_of_mod_eq_zero hdvd
      have hdle : d ≤ n := Nat.le_of_dvd (by omega) hdn
      have hn1 : 1 ≤ n / d := (Nat.one_le_div_iff (by omega)).mpr hdle
      have hlt : n / d < n := Nat.div_lt_self (by omega) (by omega)
      obtain ⟨hA, hB⟩ := ih (n / d) hn1 (by omega)
      constructor
      · rw [pow_succ']
        have h2' : d * d ^ dCountAux d fuel (n / d) ∣ d * (n / d) := Nat.mul_dvd_mul_left d hA
        rwa [Nat.mul_div_cancel' hdn] at h2'
      · rw [pow_succ', ← Nat.div_div_eq_div_mul]
        exact hB
    · have hguard : ¬(2 ≤ d ∧ n ≠ 0 ∧ n % d = 0) := by
        intro h
        exact hdvd h.2.2
      rw [dCountAux, if_neg hguard]
      simp only [pow_zero, Nat.div_one, one_dvd, true_and]
      intro h
      exact hdvd (Nat.mod_eq_zero_of_dvd h)

theorem dCountAux_max (d : Nat) (hd : 2 ≤ d) :
    ∀ fuel n j, 1 ≤ n → n ≤ fuel → d ^ j ∣ n → j ≤ dCountAux d fuel n := by
  intro fuel
  induction fuel with
  | zero => intro n j h1 h2; omega
  | succ fuel ih =>
    intro n j h1 h2 hj
    match j with
    | 0 => exact Nat.zero_le _
    | j + 1 =>
      have hdn : d ∣ n := dvd_trans (dvd_pow_self d (Nat.succ_ne_zero j)) hj
      have hguard : 2 ≤ d ∧ n ≠ 0 ∧ n % d = 0 := ⟨hd, by omega, Nat.mod_eq_zero_of_dvd hdn⟩
      rw [dCountAux, if_pos hguard]
      have hdle : d ≤ n := Nat.le_of_dvd (by omega) hdn
      have hn1 : 1 ≤ n / d := (Nat.one_le_div_iff (by omega)).mpr hdle
      have hlt : n / d < n := Nat.div_lt_self (by omega) (by omega)
      have hjq : d ^ j ∣ n / d := by
        rw [Nat.dvd_div_iff_mul_dvd hdn, ← pow_succ']
        exact hj
      exact Nat.succ_le_succ (ih (n / d) j hn1 (by omega) hjq)

theorem dCount_dvd (d n : Nat) (hd : 2 ≤ d) (hn : 1 ≤ n) : d ^ dCount d n ∣ n :=
  (dCountAux_spec d hd n n hn (Nat.le_refl n)).1

theorem dCount_not_dvd (d n : Nat) (hd : 2 ≤ d) (hn : 1 ≤ n) : ¬ d ∣ n / d ^ dCount d n :=
  (dCountAux_spec d hd n n hn (Nat.le_refl n)).2

theorem dCount_max (d n j : Nat) (hd : 2 ≤ d) (hn : 1 ≤ n) (hj : d ^ j ∣ n) :
    j ≤ dCount d n :=
  dCountAux_max d hd n n j hn (Nat.le_refl n) hj

theorem dCount_unique (d n j : Nat) (hd : 2 ≤ d) (hn : 1 ≤ n) (hj : d ^ j ∣ n)
    (hj2 : ¬ d ∣ n / d ^ j) : j = dCount d n := by
  have hle : j ≤ dCount d n := dCount_max d n j hd hn hj
  rcases Nat.lt_or_ge j (dCount d n) with hlt | hge
  · exfalso
    apply hj2
    have h1 : d ^ (j + 1) ∣ n := dvd_trans (pow_dvd_pow d hlt) (dCount_dvd d n hd hn)
    rw [Nat.dvd_div_iff_mul_dvd hj]
    calc d ^ j * d = d ^ (j + 1) := (pow_succ d j).symm
      _ ∣ n := h1
  · omega

theorem dCount_zero_of_not_dvd (d n : Nat) (hd : 2 ≤ d) (hn : 1 ≤ n) (h : ¬ d ∣ n) :
    dCount d n = 0 := by
  by_contra h0
  apply h
  calc d = d ^ 1 := (pow_one d).symm
    _ ∣ d ^ dCount d n := pow_dvd_pow d (by omega)
    _ ∣ n := dCount_dvd d n hd hn

theorem dCount_step (d n : Nat) (hd : 2 ≤ d) (hn : 1 ≤ n) (h : d ∣ n) :
    dCount d n = dCount d (n / d) + 1 := by
  have hdle : d ≤ n := Nat.le_of_dvd (by omega) h
  have hq1 : 1 ≤ n / d := (Nat.one_le_div_iff (by omega)).mpr hdle
  refine (dCount_unique d n (dCount d (n / d) + 1) hd hn ?_ ?_).symm
  · rw [pow_succ', Nat.mul_comm]
    have h2' : d ^ dCount d (n / d) * d ∣ (n / d) * d :=
      Nat.mul_dvd_mul_right (dCount_dvd d (n / d) hd hq1) d
    rwa [Nat.div_mul_cancel h] at h2'
  · rw [pow_succ', ← Nat.div_div_eq_div_mul]
    exact dCount_not_dvd d (n / d) hd hq1

theorem tz_dvd (n : Nat) (hn : 1 ≤ n) : 10 ^ tz n ∣ n := dCount_dvd 10 n (by omega) hn

theorem tz_not_dvd (n : Nat) (hn : 1 ≤ n) : ¬ 10 ∣ n / 10 ^ tz n :=
  dCount_not_dvd 10 n (by omega) hn

theorem tz_max (n j : Nat) (hn : 1 ≤ n) (hj : 10 ^ j ∣ n) : j ≤ tz n :=
  dCount_max 10 n j (by omega) hn hj

theorem tz_unique (n j : Nat) (hn : 1 ≤ n) (hj : 10 ^ j ∣ n) (hj2 : ¬ 10 ∣ n / 10 ^ j) :
    j = tz n := dCount_unique 10 n j (by omega) hn hj hj2

theorem tz_lt_of_lt_pow (n k : Nat) (hn : 1 ≤ n) (h : n < 10 ^ k) : tz n < k := by
  have h1 : 10 ^ tz n ≤ n := Nat.le_of_dvd (by omega) (tz_dvd n hn)
  have h2 : 10 ^ tz n < 10 ^ k := by omega
  exact (Nat.pow_lt_pow_iff_right (by omega)).mp h2

theorem dCount_pow (q n : Nat) (hq : 1 ≤ q) (hn : 1 ≤ n) :
    dCount (10 ^ q) n = tz n / q := by
  have hd : 2 ≤ 10 ^ q := by
    calc 2 ≤ 10 ^ 1 := by norm_num
      _ ≤ 10 ^ q := Nat.pow_le_pow_right (by omega) hq
  have hle : q * (tz n / q) ≤ tz n := by
    have h4 := Nat.div_add_mod (tz n) q
    omega
  have hdvd0 : 10 ^ (q * (tz n / q)) ∣ n := dvd_trans (pow_dvd_pow 10 hle) (tz_dvd n hn)
  refine (dCount_unique (10 ^ q) n (tz n / q) hd hn ?_ ?_).symm
  · rw [← pow_mul]
    exact hdvd0
  · intro hcon
    rw [← pow_mul] at hcon
    have h1 : 10 ^ (q * (tz n / q)) * 10 ^ q ∣ n := (Nat.dvd_div_iff_mul_dvd hdvd0).mp hcon
    rw [← pow_add] at h1
    have h2 : q * (tz n / q) + q ≤ tz n := tz_max n _ hn h1
    have h4 := Nat.div_add_mod (tz n) q
    have h5 : tz n % q < q := Nat.mod_lt _ (by omega)
    omega

theorem tz_div_pow (n j : Nat) (hn : 1 ≤ n) (hj : 10 ^ j ∣ n) :
    tz (n / 10 ^ j) = tz n - j := by
  have hjt : j ≤ tz n := tz_max n j hn hj
  have hple : 10 ^ j ≤ n := Nat.le_of_dvd (by omega) hj
  have hq1 : 1 ≤ n / 10 ^ j := (Nat.one_le_div_iff (by positivity)).mpr hple
  refine (tz_unique (n / 10 ^ j) (tz n - j) hq1 ?_ ?_).symm
  · rw [Nat.dvd_div_iff_mul_dvd hj, ← pow_add]
    have h' : j + (tz n - j) = tz n := by omega
    rw [h']
    exact tz_dvd n hn
  · rw [Nat.div_div_eq_div_mul, ← pow_add]
    have h' : j + (tz n - j) = tz n := by omega
    rw [h']
    exact tz_not_dvd n hn

theorem tz_zero_iff (n : Nat) (hn : 1 ≤ n) : tz n = 0 ↔ ¬ 10 ∣ n := by
  constructor
  · intro h0 hdvd
    have h1 : 10 ^ 1 ∣ n := by rwa [pow_one]
    have := tz_max n 1 hn h1
    omega
  · intro h
    exact dCount_zero_of_not_dvd 10 n (by omega) hn h

/-! ## The generic loop -/

theorem genLoop_eq_dCount (step : Nat → Option Nat) (d σ N : Nat) (hd : 2 ≤ d)
    (hstep : ∀ m, 1 ≤ m → m ≤ N → step m = if m % d = 0 then some (m / d) else none) :
    ∀ fuel n s, 1 ≤ n → n ≤ N → dCount d n < fuel →
      genLoop step σ fuel n s = some (n / d ^ dCount d n, s + σ * dCount d n) := by
  intro fuel
  induction fuel with
  | zero => intro n s h1 h2 hf; omega
  | succ fuel ih =>
    intro n s h1 h2 hf
    rw [genLoop, hstep n h1 h2]
    by_cases hdvd : n % d = 0
    · rw [if_pos hdvd]
      have hdn : d ∣ n := Nat.dvd_of_mod_eq_zero hdvd
      have hstepc := dCount_step d n hd h1 hdn
      have hdle : d ≤ n := Nat.le_of_dvd (by omega) hdn
      have hq1 : 1 ≤ n / d := (Nat.one_le_div_iff (by omega)).mpr hdle
      have hqN : n / d ≤ N := le_trans (Nat.div_le_self n d) h2
      have hqf : dCount d (n / d) < fuel := by omega
      simp only
      rw [ih (n / d) (s + σ) hq1 hqN hqf]
      have hdiv : n / d / d ^ dCount d (n / d) = n / d ^ dCount d n := by
        rw [Nat.div_div_eq_div_mul, hstepc, pow_succ', Nat.mul_comm]
      rw [hdiv, hstepc]
      have harith : s + σ + σ * dCount d (n / d) = s + σ * (dCount d (n / d) + 1) := by ring
      rw [harith]
    · rw [if_neg hdvd]
      have h0 : dCount d n = 0 := by
        apply dCount_zero_of_not_dvd d n hd h1
        intro hcon
        exact hdvd (Nat.mod_eq_zero_of_dvd hcon)
      rw [h0]
      simp

/-! ## Bit-level helpers -/

theorem lor_mul_pow_eq_add (t a b : Nat) (hb : b < 2 ^ t) :
    (2 ^ t * a) ||| b = 2 ^ t * a + b := by
  apply Nat.eq_of_testBit_eq
  intro i
  rw [Nat.testBit_or, Nat.testBit_mul_pow_two_add a hb i, Nat.testBit_mul_pow_two]
  by_cases h : i < t
  · have h' : ¬ i ≥ t := by omega
    simp [h, h']
  · have h' : i ≥ t := by omega
    have hbf : b.testBit i = false := Nat.testBit_lt_two_pow (by
      calc b < 2 ^ t := hb
        _ ≤ 2 ^ i := Nat.pow_le_pow_right (by omega) h')
    simp [h, h', hbf]

theorem rotr_eq_arith (w e n r : Nat) (hw : w = 2 ^ e) (hn : n < 2 ^ w) :
    rotr w n r = n / 2 ^ (r % w) + n % 2 ^ (r % w) * 2 ^ (w - r % w) := by
  have hwpos : 0 < w := by rw [hw]; positivity
  have hand : ∀ u : Nat, u &&& (w - 1) = u % w := by
    intro u
    rw [hw]
    exact Nat.and_pow_two_sub_one_eq_mod u e
  rw [rotr]
  simp only [hand]
  have htw : r % w < w := Nat.mod_lt _ hwpos
  by_cases ht0 : r % w = 0
  · rw [ht0]
    simp only [Nat.shiftRight_zero, Nat.sub_zero, Nat.mod_self, Nat.shiftLeft_zero]
    rw [Nat.mod_eq_of_lt hn]
    simp only [Nat.or_self, pow_zero, Nat.div_one, Nat.mod_one, Nat.zero_mul, Nat.add_zero]
  · generalize hgen : r % w = t at htw ht0
    have hwt : (w - t) % w = w - t := Nat.mod_eq_of_lt (by omega)
    rw [hwt, Nat.shiftRight_eq_div_pow, Nat.shiftLeft_eq]
    have hsplit : 2 ^ w = 2 ^ t * 2 ^ (w - t) := by
      rw [← pow_add]
      congr 1
      omega
    have hmod : n * 2 ^ (w - t) % 2 ^ w = n % 2 ^ t * 2 ^ (w - t) := by
      rw [hsplit, Nat.mul_mod_mul_right]
    rw [hmod]
    have hdivlt : n / 2 ^ t < 2 ^ (w - t) := by
      rw [Nat.div_lt_iff_lt_mul (by positivity)]
      calc n < 2 ^ w := hn
        _ = 2 ^ (w - t) * 2 ^ t := by rw [← pow_add]; congr 1; omega
    rw [Nat.lor_comm, Nat.mul_comm (n % 2 ^ t), lor_mul_pow_eq_add _ _ _ hdivlt]
    ring

theorem umul128_generic_eq (x y : Nat) (hx : x < 2 ^ 64) (hy : y < 2 ^ 64) :
    wuint.umul128_generic x y = (x * y / 2 ^ 64, x * y % 2 ^ 64) := by
  unfold wuint.umul128_generic wuint.umul64
  simp only [Nat.shiftRight_eq_div_pow, Nat.shiftLeft_eq]
  have hA : x / 2 ^ 32 < 2 ^ 32 := by omega
  have hC : y / 2 ^ 32 < 2 ^ 32 := by omega
  rw [Nat.mod_eq_of_lt hA, Nat.mod_eq_of_lt hC]
  have hxd := Nat.div_add_mod x (2 ^ 32)
  have hyd := Nat.div_add_mod y (2 ^ 32)
  have hxy : x * y = x / 2 ^ 32 * (y / 2 ^ 32) * 2 ^ 64 + x / 2 ^ 32 * (y % 2 ^ 32) * 2 ^ 32
      + x % 2 ^ 32 * (y / 2 ^ 32) * 2 ^ 32 + x % 2 ^ 32 * (y % 2 ^ 32) := by
    conv_lhs => rw [← hxd, ← hyd]
    ring
  have hBlt : x % 2 ^ 32 < 2 ^ 32 := Nat.mod_lt _ (by positivity)
  have hDlt : y % 2 ^ 32 < 2 ^ 32 := Nat.mod_lt _ (by positivity)
  have hpAC : x / 2 ^ 32 * (y / 2 ^ 32) ≤ (2 ^ 32 - 1) * (2 ^ 32 - 1) :=
    Nat.mul_le_mul (by omega) (by omega)
  have hpAD : x / 2 ^ 32 * (y % 2 ^ 32) ≤ (2 ^ 32 - 1) * (2 ^ 32 - 1) :=
    Nat.mul_le_mul (by omega) (by omega)
  have hpBC : x % 2 ^ 32 * (y / 2 ^ 32) ≤ (2 ^ 32 - 1) * (2 ^ 32 - 1) :=
    Nat.mul_le_mul (by omega) (by omega)
  have hpBD : x % 2 ^ 32 * (y % 2 ^ 32) ≤ (2 ^ 32 - 1) * (2 ^ 32 - 1) :=
    Nat.mul_le_mul (by omega) (by omega)
  generalize x / 2 ^ 32 * (y / 2 ^ 32) = pAC at hxy hpAC
  generalize x / 2 ^ 32 * (y % 2 ^ 32) = pAD at hxy hpAD
  generalize x % 2 ^ 32 * (y / 2 ^ 32) = pBC at hxy hpBC
  generalize x % 2 ^ 32 * (y % 2 ^ 32) = pBD at hxy hpBD
  generalize x * y = P at hxy ⊢
  rw [Prod.mk.injEq]
  constructor
  · omega
  · omega

/-! ## Generic divisibility-test lemmas for the multiplicative algorithms -/

theorem lemire_divisibility (d magic e k n : Nat) (hd : 1 ≤ d)
    (hde : d * magic = 2 ^ k + e) (he : 1 ≤ e)
    (hn : (n / d + 1) * e < magic) :
    ((n * magic) % 2 ^ k < magic ↔ n % d = 0) ∧ n * magic / 2 ^ k = n / d := by
  have hnd := Nat.div_add_mod n d
  have hr : n % d < d := Nat.mod_lt _ (by omega)
  have hdec : n * magic = n / d * 2 ^ k + (n / d * e + n % d * magic) := by
    have h1 : n * magic = d * magic * (n / d) + n % d * magic := by
      conv_lhs => rw [← hnd]
      ring
    rw [h1, hde]
    ring
  have hrm : n % d * magic ≤ (d - 1) * magic := Nat.mul_le_mul_right _ (by omega)
  have hdm : (d - 1) * magic + magic = 2 ^ k + e := by
    have h1 : (d - 1) * magic + magic = d * magic := by
      have h2 : d - 1 + 1 = d := by omega
      calc (d - 1) * magic + magic = (d - 1 + 1) * magic := by ring
        _ = d * magic := by rw [h2]
    rw [h1, hde]
  have hme : n / d * e + e < magic := by
    have h3 : (n / d + 1) * e = n / d * e + e := by ring
    omega
  have hsmall : n / d * e + n % d * magic < 2 ^ k := by omega
  have hmod : (n * magic) % 2 ^ k = n / d * e + n % d * magic := by
    rw [hdec, Nat.mul_comm (n / d) (2 ^ k), Nat.mul_add_mod]
    exact Nat.mod_eq_of_lt hsmall
  have hquot : n * magic / 2 ^ k = n / d := by
    rw [hdec, Nat.mul_comm (n / d) (2 ^ k), Nat.mul_add_div (by positivity)]
    rw [Nat.div_eq_of_lt hsmall]
    omega
  refine ⟨?_, hquot⟩
  rw [hmod]
  constructor
  · intro hlt
    by_contra hne
    have h1 : 1 ≤ n % d := by omega
    have h2 : magic ≤ n % d * magic := Nat.le_mul_of_pos_left _ (by omega)
    omega
  · intro h0
    rw [h0]
    omega
theorem gm_divisibility (k a d b c T n : Nat)
    (hak : a < k) (hdef : d = 2 ^ a * b) (hb1 : 1 < b)
    (hcodd : c % 2 = 1)
    (hdc : d * c % 2 ^ k = 2 ^ a)
    (hbinv : b * (c % 2 ^ (k - a)) % 2 ^ (k - a) = 1)
    (hbT : b * (T - 1) ≤ 2 ^ (k - a))
    (hTk : T ≤ 2 ^ (k - a))
    (hfloor : (2 ^ k - 1) / d < T)
    (hn : n < 2 ^ k) :
    (n * c % 2 ^ k / 2 ^ a + n * c % 2 ^ k % 2 ^ a * 2 ^ (k - a) < T ↔ n % d = 0) ∧
      (n % d = 0 → n * c % 2 ^ k / 2 ^ a + n * c % 2 ^ k % 2 ^ a * 2 ^ (k - a) = n / d) := by
  have hdpos : 0 < d := by
    rw [hdef]
    positivity
  have hkpos : 1 ≤ 2 ^ k := Nat.one_le_two_pow
  have hsplitk : 2 ^ k = 2 ^ a * 2 ^ (k - a) := by
    rw [← pow_add]
    congr 1
    omega
  by_cases hdvd : n % d = 0
  · -- divisible case: the rotated value is exactly the quotient
    have hdn : d ∣ n := Nat.dvd_of_mod_eq_zero hdvd
    obtain ⟨m, hm⟩ := hdn
    have hmq : n / d = m := by rw [hm]; exact Nat.mul_div_cancel_left m hdpos
    have hmle : m ≤ (2 ^ k - 1) / d := by
      rw [← hmq]
      exact Nat.div_le_div_right (by omega)
    have h2am : 2 ^ a * m < 2 ^ k := by
      have h1 : 2 ^ a * m ≤ 2 ^ a * ((2 ^ k - 1) / d) := Nat.mul_le_mul_left _ hmle
      have h2 : (2 ^ k - 1) / d ≤ (2 ^ k - 1) / 2 ^ a := by
        apply Nat.div_le_div_left _ (by positivity)
        rw [hdef]
        exact Nat.le_mul_of_pos_right _ (by omega)
      have h3 : 2 ^ a * ((2 ^ k - 1) / 2 ^ a) ≤ 2 ^ k - 1 := by
        rw [Nat.mul_comm]
        exact Nat.div_mul_le_self _ _
      have h4 : 2 ^ a * ((2 ^ k - 1) / d) ≤ 2 ^ a * ((2 ^ k - 1) / 2 ^ a) :=
        Nat.mul_le_mul_left _ h2
      omega
    have hmlt : m < 2 ^ k := by
      have := Nat.div_le_self (2 ^ k - 1) d
      omega
    have hx : n * c % 2 ^ k = 2 ^ a * m := by
      have h1 : n * c = m * (d * c) := by rw [hm]; ring
      rw [h1, Nat.mul_mod, hdc, Nat.mod_eq_of_lt hmlt, Nat.mul_comm m (2 ^ a),
        Nat.mod_eq_of_lt h2am]
    rw [hx, Nat.mul_div_cancel_left _ (show 0 < 2 ^ a by positivity), Nat.mul_mod_right]
    simp only [Nat.zero_mul, Nat.add_zero]
    refine ⟨⟨fun _ => hdvd, fun _ => by omega⟩, fun _ => hmq.symm⟩
  · -- non-divisible case: the rotated value is at least the threshold
    by_cases hpa : n % 2 ^ a = 0
    · -- n is divisible by 2^a but its odd part is not divisible by b
      have hdvda : 2 ^ a ∣ n := Nat.dvd_of_mod_eq_zero hpa
      obtain ⟨j, hj⟩ := hdvda
      have hjlt : j < 2 ^ (k - a) := by
        by_contra hc
        push_neg at hc
        have h1 : 2 ^ k ≤ n := by
          rw [hj, hsplitk]
          exact Nat.mul_le_mul_left _ hc
        omega
      have hbj : ¬ b ∣ j := by
        intro hbj
        apply hdvd
        obtain ⟨j2, hj2⟩ := hbj
        apply Nat.mod_eq_zero_of_dvd
        rw [hj, hj2, hdef]
        exact ⟨j2, by ring⟩
      have hx2 : n * c % 2 ^ k = 2 ^ a * (j * c % 2 ^ (k - a)) := by
        rw [hj, hsplitk, Nat.mul_assoc, Nat.mul_mod_mul_left]
      have hvlt : j * c % 2 ^ (k - a) < 2 ^ (k - a) := Nat.mod_lt _ (by positivity)
      have hrot : n * c % 2 ^ k / 2 ^ a + n * c % 2 ^ k % 2 ^ a * 2 ^ (k - a)
          = j * c % 2 ^ (k - a) := by
        rw [hx2, Nat.mul_div_cancel_left _ (show 0 < 2 ^ a by positivity), Nat.mul_mod_right]
        simp
      rw [hrot]
      have h5 : b * c % 2 ^ (k - a) = 1 := by rwa [Nat.mul_mod_mod] at hbinv
      have hvT : ¬ j * c % 2 ^ (k - a) < T := by
        intro hvT
        have hbv : b * (j * c % 2 ^ (k - a)) % 2 ^ (k - a) = j := by
          rw [Nat.mul_mod_mod]
          have h6 : b * (j * c) = j * (b * c) := by ring
          rw [h6, ← Nat.mul_mod_mod, h5, Nat.mul_one, Nat.mod_eq_of_lt hjlt]
        have hbvle : b * (j * c % 2 ^ (k - a)) ≤ 2 ^ (k - a) := by
          calc b * (j * c % 2 ^ (k - a)) ≤ b * (T - 1) := Nat.mul_le_mul_left _ (by omega)
            _ ≤ 2 ^ (k - a) := hbT
        rcases Nat.lt_or_ge (b * (j * c % 2 ^ (k - a))) (2 ^ (k - a)) with hlt2 | hge2
        · have h7 : j = b * (j * c % 2 ^ (k - a)) := by
            conv_lhs => rw [← hbv]
            exact Nat.mod_eq_of_lt hlt2
          exact hbj ⟨j * c % 2 ^ (k - a), h7⟩
        · have hEq : b * (j * c % 2 ^ (k - a)) = 2 ^ (k - a) := by omega
          have h8 : j = 0 := by
            conv_lhs => rw [← hbv]
            rw [hEq, Nat.mod_self]
          apply hdvd
          rw [hj, h8, Nat.mul_zero, Nat.zero_mod]
      exact ⟨⟨fun h => absurd h hvT, fun h => absurd h hdvd⟩, fun h => absurd h hdvd⟩
    · -- n is not even divisible by 2^a: the rotation moves a nonzero bit to the top
      have hxne : n * c % 2 ^ k % 2 ^ a ≠ 0 := by
        rw [Nat.mod_mod_of_dvd _ (pow_dvd_pow 2 (le_of_lt hak))]
        intro h0
        have hdvd2 : 2 ^ a ∣ n * c := Nat.dvd_of_mod_eq_zero h0
        have hcop2 : Nat.Coprime 2 c := by
          rw [Nat.coprime_two_left]
          exact Nat.odd_iff.mpr hcodd
        have hcop : Nat.Coprime (2 ^ a) c := Nat.Coprime.pow_left a hcop2
        have h9 : 2 ^ a ∣ n := hcop.dvd_of_dvd_mul_right hdvd2
        exact hpa (Nat.mod_eq_zero_of_dvd h9)
      have hge : 2 ^ (k - a) ≤ n * c % 2 ^ k / 2 ^ a + n * c % 2 ^ k % 2 ^ a * 2 ^ (k - a) := by
        have h1 : 1 ≤ n * c % 2 ^ k % 2 ^ a := by omega
        calc 2 ^ (k - a) = 1 * 2 ^ (k - a) := (Nat.one_mul _).symm
          _ ≤ n * c % 2 ^ k % 2 ^ a * 2 ^ (k - a) := Nat.mul_le_mul_right _ h1
          _ ≤ n * c % 2 ^ k / 2 ^ a + n * c % 2 ^ k % 2 ^ a * 2 ^ (k - a) := Nat.le_add_left _ _
      exact ⟨⟨fun h => absurd h (by omega), fun h => absurd h hdvd⟩, fun h => absurd h hdvd⟩

theorem mod_add_cancel (K A x : Nat) (hK : 0 < K) (hx : x < K) (h : (A + x) % K = x) :
    A % K = 0 := by
  rw [Nat.add_mod] at h
  have hB : A % K < K := Nat.mod_lt _ hK
  have hxx : x % K = x := Nat.mod_eq_of_lt hx
  rw [hxx] at h
  rcases Nat.lt_or_ge (A % K + x) K with hlt | hge
  · rw [Nat.mod_eq_of_lt hlt] at h
    omega
  · rw [Nat.mod_eq_sub_mod hge, Nat.mod_eq_of_lt (by omega)] at h
    omega

theorem ggm_divisibility (k a d b bp c T n : Nat)
    (hak : a < k) (hdef : d = 2 ^ a * b) (hb1 : 1 < b)
    (hdc : d * c % 2 ^ k = 2 ^ a)
    (hbc : b * c % 2 ^ k = bp * 2 ^ (k - a) + 1) (hbp : bp % 2 = 1)
    (hdT : d * T ≤ 2 ^ (k + 1)) (hTk : T ≤ 2 ^ k)
    (hE : ∀ y, y < T - (2 ^ k + d - 1) / d →
      ¬(2 ^ a ∣ d * ((2 ^ k + d - 1) / d + y) - 2 ^ k ∧
        (d * ((2 ^ k + d - 1) / d + y) - 2 ^ k) / 2 ^ a * c % 2 ^ k = (2 ^ k + d - 1) / d + y))
    (hn : 2 ^ a * n < 2 ^ k) (hm : 2 ^ a * (n / d) < T) :
    (n * c % 2 ^ k < T ↔ n % d = 0) ∧
      (n % d = 0 → (n * c % 2 ^ k) >>> a = n / d) := by
  have hdpos : 0 < d := by rw [hdef]; positivity
  have hapos : 0 < 2 ^ a := by positivity
  have hkpos : 0 < 2 ^ k := by positivity
  have hnk : n < 2 ^ k := by
    have h1 : n ≤ 2 ^ a * n := Nat.le_mul_of_pos_left _ hapos
    omega
  have hxlt : n * c % 2 ^ k < 2 ^ k := Nat.mod_lt _ hkpos
  have hfwd : n % d = 0 → n * c % 2 ^ k = 2 ^ a * (n / d) := by
    intro hdvd
    obtain ⟨m, hmm⟩ := Nat.dvd_of_mod_eq_zero hdvd
    have hmq : n / d = m := by rw [hmm]; exact Nat.mul_div_cancel_left m hdpos
    rw [hmq]
    have h1 : n * c = m * (d * c) := by rw [hmm]; ring
    have hmlt : m < 2 ^ k := by
      have h2 : m ≤ n := by
        rw [hmm]
        exact Nat.le_mul_of_pos_left _ hdpos
      omega
    have h2am : 2 ^ a * m < 2 ^ k := by
      rw [← hmq]
      omega
    rw [h1, Nat.mul_mod, hdc, Nat.mod_eq_of_lt hmlt, Nat.mul_comm m (2 ^ a),
      Nat.mod_eq_of_lt h2am]
  refine ⟨⟨?_, fun hdvd => by rw [hfwd hdvd]; exact hm⟩, fun hdvd => by
    rw [hfwd hdvd, Nat.shiftRight_eq_div_pow]
    exact Nat.mul_div_cancel_left _ hapos⟩
  intro hlt
  by_contra hdvd
  have hdx : d * (n * c % 2 ^ k) % 2 ^ k = 2 ^ a * n := by
    rw [Nat.mul_mod_mod]
    have h1 : d * (n * c) = n * (d * c) := by ring
    rw [h1, ← Nat.mul_mod_mod, hdc, Nat.mul_comm n (2 ^ a), Nat.mod_eq_of_lt hn]
  have hq := Nat.div_add_mod (d * (n * c % 2 ^ k)) (2 ^ k)
  rw [hdx] at hq
  have hqlt : d * (n * c % 2 ^ k) / 2 ^ k < 2 := by
    have h1 : d * (n * c % 2 ^ k) ≤ d * (T - 1) := Nat.mul_le_mul_left _ (by omega)
    have h2 : d * (T - 1) < d * T := (Nat.mul_lt_mul_left hdpos).mpr (by omega)
    have h4 : 2 ^ (k + 1) = 2 * 2 ^ k := by ring
    rw [Nat.div_lt_iff_lt_mul hkpos]
    omega
  have hq01 : d * (n * c % 2 ^ k) / 2 ^ k = 0 ∨ d * (n * c % 2 ^ k) / 2 ^ k = 1 := by
    rcases Nat.lt_or_ge (d * (n * c % 2 ^ k) / 2 ^ k) 1 with h1 | h1
    · exact Or.inl (Nat.lt_one_iff.mp h1)
    · exact Or.inr (Nat.le_antisymm (Nat.lt_succ_iff.mp hqlt) h1)
  rcases hq01 with hq0 | hq1
  · -- no wraparound: d * x = 2^a * n exactly
    rw [hq0] at hq
    simp only [Nat.mul_zero, Nat.zero_add] at hq
    have hnbx : n = b * (n * c % 2 ^ k) := by
      have h1 : 2 ^ a * (b * (n * c % 2 ^ k)) = 2 ^ a * n := by
        rw [show 2 ^ a * (b * (n * c % 2 ^ k)) = 2 ^ a * b * (n * c % 2 ^ k) from by ring,
          ← hdef, hq]
      exact (Nat.eq_of_mul_eq_mul_left hapos h1).symm
    have h2 : n * c % 2 ^ k * (b * c) % 2 ^ k = n * c % 2 ^ k := by
      conv_rhs => rw [hnbx]
      congr 1
      ring
    have hstep : (n * c % 2 ^ k * (bp * 2 ^ (k - a)) + n * c % 2 ^ k) % 2 ^ k
        = n * c % 2 ^ k := by
      have h1 : n * c % 2 ^ k * (bp * 2 ^ (k - a)) + n * c % 2 ^ k
          = n * c % 2 ^ k * (bp * 2 ^ (k - a) + 1) := by ring
      rw [h1, ← hbc, Nat.mul_mod_mod]
      exact h2
    have hzero : n * c % 2 ^ k * (bp * 2 ^ (k - a)) % 2 ^ k = 0 :=
      mod_add_cancel _ _ _ hkpos hxlt hstep
    have hdvd2k : 2 ^ k ∣ n * c % 2 ^ k * bp * 2 ^ (k - a) := by
      apply Nat.dvd_of_mod_eq_zero
      rw [show n * c % 2 ^ k * bp * 2 ^ (k - a)
        = n * c % 2 ^ k * (bp * 2 ^ (k - a)) from by ring]
      exact hzero
    obtain ⟨w, hw⟩ := hdvd2k
    have hsplitk : 2 ^ k = 2 ^ a * 2 ^ (k - a) := by
      rw [← pow_add]
      congr 1
      omega
    have hxbp : n * c % 2 ^ k * bp = 2 ^ a * w := by
      apply Nat.eq_of_mul_eq_mul_right (show 0 < 2 ^ (k - a) by positivity)
      rw [hw, hsplitk]
      ring
    have hcop : Nat.Coprime (2 ^ a) bp := by
      apply Nat.Coprime.pow_left
      rw [Nat.coprime_two_left]
      exact Nat.odd_iff.mpr hbp
    have hdvdx : 2 ^ a ∣ n * c % 2 ^ k :=
      hcop.dvd_of_dvd_mul_right ⟨w, hxbp⟩
    obtain ⟨x2, hx2⟩ := hdvdx
    apply hdvd
    apply Nat.mod_eq_zero_of_dvd
    refine ⟨x2, ?_⟩
    rw [hnbx, hx2, hdef]
    ring
  · -- wraparound case: excluded by the finitely many edge values checked in hE
    rw [hq1, Nat.mul_one] at hq
    have hqe : d * (n * c % 2 ^ k) = 2 ^ k + 2 ^ a * n := by omega
    have hxL : (2 ^ k + d - 1) / d ≤ n * c % 2 ^ k := by
      have h1 : 2 ^ k + d - 1 ≤ d - 1 + d * (n * c % 2 ^ k) := by omega
      have h2 : (2 ^ k + d - 1) / d ≤ (d - 1 + d * (n * c % 2 ^ k)) / d :=
        Nat.div_le_div_right h1
      have h3 : (d - 1 + d * (n * c % 2 ^ k)) / d = (d - 1) / d + (n * c % 2 ^ k) :=
        Nat.add_mul_div_left _ _ hdpos
      have h4 : (d - 1) / d = 0 := Nat.div_eq_of_lt (by omega)
      omega
    have hLx : (2 ^ k + d - 1) / d + (n * c % 2 ^ k - (2 ^ k + d - 1) / d)
        = n * c % 2 ^ k := by omega
    apply hE (n * c % 2 ^ k - (2 ^ k + d - 1) / d) (by omega)
    rw [hLx]
    have hsub : d * (n * c % 2 ^ k) - 2 ^ k = 2 ^ a * n := by omega
    rw [hsub, Nat.mul_div_cancel_left n hapos]
    exact ⟨⟨n, rfl⟩, rfl⟩

/-! ## Instantiating the step lemmas at the concrete magic constants -/

theorem umul128_eq (x y : Nat) (hx : x < 2 ^ 64) (hy : y < 2 ^ 64) :
    wuint.umul128 x y = (x * y / 2 ^ 64, x * y % 2 ^ 64) := by
  unfold wuint.umul128 wuint.umul128_builtin
  rw [Nat.shiftRight_eq_div_pow]
  congr 1
  apply Nat.mod_eq_of_lt
  have h1 : x * y < 2 ^ 64 * 2 ^ 64 := Nat.mul_lt_mul_of_lt_of_lt hx hy
  omega

theorem lemire32_step_eq (n : Nat) (hn : n < 100000000) :
    alg32.lemire_step n = if n % 10 = 0 then some (n / 10) else none := by
  simp only [alg32.lemire_step]
  have hr : n * 429496730 < 2 ^ 64 := by omega
  rw [Nat.mod_eq_of_lt hr, Nat.shiftRight_eq_div_pow]
  obtain ⟨hiff, hval⟩ := lemire_divisibility 10 429496730 4 32 n (by norm_num) (by norm_num)
    (by norm_num) (by omega)
  by_cases h : n % 10 = 0
  · rw [if_pos h, if_pos (hiff.mpr h), hval]
    congr 1
    exact Nat.mod_eq_of_lt (by omega)
  · rw [if_neg h, if_neg (fun hc => h (hiff.mp hc))]

theorem lemire32_step100_eq (n : Nat) (hn : n < 100000000) :
    alg32.lemire_step100 n = if n % 100 = 0 then some (n / 100) else none := by
  simp only [alg32.lemire_step100]
  have hr : n * 42949673 < 2 ^ 64 := by omega
  rw [Nat.mod_eq_of_lt hr, Nat.shiftRight_eq_div_pow]
  obtain ⟨hiff, hval⟩ := lemire_divisibility 100 42949673 4 32 n (by norm_num) (by norm_num)
    (by norm_num) (by omega)
  by_cases h : n % 100 = 0
  · rw [if_pos h, if_pos (hiff.mpr h), hval]
    congr 1
    exact Nat.mod_eq_of_lt (by omega)
  · rw [if_neg h, if_neg (fun hc => h (hiff.mp hc))]

theorem lemire64_step_eq (n : Nat) (hn : n < 10000000000000000) :
    alg64.lemire_step n = if n % 10 = 0 then some (n / 10) else none := by
  simp only [alg64.lemire_step, umul128_eq n 1844674407370955162 (by omega) (by norm_num)]
  obtain ⟨hiff, hval⟩ := lemire_divisibility 10 1844674407370955162 4 64 n (by norm_num)
    (by norm_num) (by norm_num) (by omega)
  by_cases h : n % 10 = 0
  · rw [if_pos h, if_pos (hiff.mpr h), hval]
  · rw [if_neg h, if_neg (fun hc => h (hiff.mp hc))]

theorem lemire64_step100_eq (n : Nat) (hn : n < 10000000000000000) :
    alg64.lemire_step100 n = if n % 100 = 0 then some (n / 100) else none := by
  simp only [alg64.lemire_step100, umul128_eq n 184467440737095517 (by omega) (by norm_num)]
  obtain ⟨hiff, hval⟩ := lemire_divisibility 100 184467440737095517 84 64 n (by norm_num)
    (by norm_num) (by norm_num) (by omega)
  by_cases h : n % 100 = 0
  · rw [if_pos h, if_pos (hiff.mpr h), hval]
  · rw [if_neg h, if_neg (fun hc => h (hiff.mp hc))]

theorem lemire64_branch_eq (n : Nat) (hn : n < 10000000000000000) :
    (alg64.lemire_8_2_1_branch n = true ↔ n % 100000000 = 0) ∧
      (n % 100000000 = 0 → alg64.lemire_8_2_1_delegate n = n / 100000000) := by
  have hmagic : (12089258196146292 : Nat) < 2 ^ 64 := by norm_num
  simp only [alg64.lemire_8_2_1_branch, alg64.lemire_8_2_1_delegate,
    umul128_eq n 12089258196146292 (by omega) hmagic, decide_eq_true_eq]
  obtain ⟨hiff, hval⟩ := lemire_divisibility 100000000 12089258196146292 25293824 80 n
    (by norm_num) (by norm_num) (by norm_num) (by omega)
  have hsplit : n * 12089258196146292 % 2 ^ 80
      = n * 12089258196146292 % 2 ^ 64
        + 2 ^ 64 * (n * 12089258196146292 / 2 ^ 64 % 2 ^ 16) := by
    rw [show (2 : Nat) ^ 80 = 2 ^ 64 * 2 ^ 16 from by norm_num]
    exact Nat.mod_mul
  have hand : ∀ u : Nat, u &&& (1 <<< (80 - 64)) - 1 = u % 2 ^ 16 := by
    intro u
    rw [show (80 - 64 : Nat) = 16 from rfl, Nat.shiftLeft_eq, Nat.one_mul]
    exact Nat.and_pow_two_sub_one_eq_mod u 16
  have hhi : n * 12089258196146292 / 2 ^ 64 % 2 ^ 16 < 2 ^ 16 := Nat.mod_lt _ (by norm_num)
  have hlo : n * 12089258196146292 % 2 ^ 64 < 2 ^ 64 := Nat.mod_lt _ (by norm_num)
  have hq80 : n * 12089258196146292 / 2 ^ 80 = n * 12089258196146292 / 2 ^ 64 / 2 ^ 16 := by
    rw [Nat.div_div_eq_div_mul]
    norm_num
  constructor
  · rw [hand]
    constructor
    · intro ⟨h1, h2⟩
      apply hiff.mp
      omega
    · intro h
      have h3 := hiff.mpr h
      constructor
      · omega
      · omega
  · intro h
    rw [Nat.shiftRight_eq_div_pow, show (80 - 64 : Nat) = 16 from rfl, ← hq80, hval]
    apply Nat.mod_eq_of_lt
    omega

theorem gm32_step_eq (n : Nat) (hn : n < 2 ^ 32) :
    alg32.granlund_montgomery_step n = if n % 10 = 0 then some (n / 10) else none := by
  simp only [alg32.granlund_montgomery_step]
  have hxlt : (n * 3435973837) % 2 ^ 32 < 2 ^ 32 := Nat.mod_lt _ (by norm_num)
  rw [rotr_eq_arith 32 5 _ 1 (by norm_num) hxlt]
  obtain ⟨hiff, hval⟩ := gm_divisibility 32 1 10 5 3435973837 429496730 n (by norm_num)
    (by norm_num) (by norm_num) (by norm_num) (by decide) (by decide) (by decide) (by decide)
    (by decide) hn
  simp only [show (1 : Nat) % 32 = 1 from rfl, show (32 : Nat) - 1 = 31 from rfl] at hiff hval ⊢
  by_cases h : n % 10 = 0
  · rw [if_pos h, if_pos (hiff.mpr h), hval h]
  · rw [if_neg h, if_neg (fun hc => h (hiff.mp hc))]

theorem gm32_step100_eq (n : Nat) (hn : n < 2 ^ 32) :
    alg32.granlund_montgomery_step100 n = if n % 100 = 0 then some (n / 100) else none := by
  simp only [alg32.granlund_montgomery_step100]
  have hxlt : (n * 3264175145) % 2 ^ 32 < 2 ^ 32 := Nat.mod_lt _ (by norm_num)
  rw [rotr_eq_arith 32 5 _ 2 (by norm_num) hxlt]
  obtain ⟨hiff, hval⟩ := gm_divisibility 32 2 100 25 3264175145 42949673 n (by norm_num)
    (by norm_num) (by norm_num) (by norm_num) (by decide) (by decide) (by decide) (by decide)
    (by decide) hn
  simp only [show (2 : Nat) % 32 = 2 from rfl, show (32 : Nat) - 2 = 30 from rfl] at hiff hval ⊢
  by_cases h : n % 100 = 0
  · rw [if_pos h, if_pos (hiff.mpr h), hval h]
  · rw [if_neg h, if_neg (fun hc => h (hiff.mp hc))]

theorem gm64_step_eq (n : Nat) (hn : n < 2 ^ 64) :
    alg64.granlund_montgomery_step n = if n % 10 = 0 then some (n / 10) else none := by
  simp only [alg64.granlund_montgomery_step]
  have hxlt : (n * 14757395258967641293) % 2 ^ 64 < 2 ^ 64 := Nat.mod_lt _ (by norm_num)
  rw [rotr_eq_arith 64 6 _ 1 (by norm_num) hxlt]
  obtain ⟨hiff, hval⟩ := gm_divisibility 64 1 10 5 14757395258967641293 1844674407370955162 n
    (by norm_num) (by norm_num) (by norm_num) (by norm_num) (by decide) (by decide) (by decide)
    (by decide) (by decide) hn
  simp only [show (1 : Nat) % 64 = 1 from rfl, show (64 : Nat) - 1 = 63 from rfl] at hiff hval ⊢
  by_cases h : n % 10 = 0
  · rw [if_pos h, if_pos (hiff.mpr h), hval h]
  · rw [if_neg h, if_neg (fun hc => h (hiff.mp hc))]

theorem gm64_step100_eq (n : Nat) (hn : n < 2 ^ 64) :
    alg64.granlund_montgomery_step100 n = if n % 100 = 0 then some (n / 100) else none := by
  simp only [alg64.granlund_montgomery_step100]
  have hxlt : (n * 10330176681277348905) % 2 ^ 64 < 2 ^ 64 := Nat.mod_lt _ (by norm_num)
  rw [rotr_eq_arith 64 6 _ 2 (by norm_num) hxlt]
  obtain ⟨hiff, hval⟩ := gm_divisibility 64 2 100 25 10330176681277348905 184467440737095517 n
    (by norm_num) (by norm_num) (by norm_num) (by norm_num) (by decide) (by decide) (by decide)
    (by decide) (by decide) hn
  simp only [show (2 : Nat) % 64 = 2 from rfl, show (64 : Nat) - 2 = 62 from rfl] at hiff hval ⊢
  by_cases h : n % 100 = 0
  · rw [if_pos h, if_pos (hiff.mpr h), hval h]
  · rw [if_neg h, if_neg (fun hc => h (hiff.mp hc))]

theorem gm64_branch_eq (n : Nat) (hn : n < 2 ^ 64) :
    (alg64.granlund_montgomery_8_2_1_branch n = true ↔ n % 100000000 = 0) ∧
      (n % 100000000 = 0 →
        rotr 64 ((n * 28999941890838049) % 2 ^ 64) 8 = n / 100000000) := by
  simp only [alg64.granlund_montgomery_8_2_1_branch, decide_eq_true_eq]
  have hxlt : (n * 28999941890838049) % 2 ^ 64 < 2 ^ 64 := Nat.mod_lt _ (by norm_num)
  rw [rotr_eq_arith 64 6 _ 8 (by norm_num) hxlt]
  obtain ⟨hiff, hval⟩ := gm_divisibility 64 8 100000000 390625 28999941890838049
    184467440738 n (by norm_num) (by norm_num) (by norm_num) (by norm_num) (by decide)
    (by decide) (by decide) (by decide) (by decide) hn
  simp only [show (8 : Nat) % 64 = 8 from rfl, show (64 : Nat) - 8 = 56 from rfl] at hiff hval ⊢
  exact ⟨hiff, hval⟩

theorem ggm32_step_eq (n : Nat) (hn : n < 100000000) :
    alg32.generalized_granlund_montgomery_step n
      = if n % 10 = 0 then some (n / 10) else none := by
  simp only [alg32.generalized_granlund_montgomery_step]
  obtain ⟨hiff, hval⟩ := ggm_divisibility 32 1 10 5 1 1288490189 429496731 n (by norm_num)
    (by norm_num) (by norm_num) (by decide) (by decide) (by norm_num) (by decide) (by decide)
    (by decide) (by omega) (by omega)
  by_cases h : n % 10 = 0
  · rw [if_pos h, if_pos (hiff.mpr h), hval h]
  · rw [if_neg h, if_neg (fun hc => h (hiff.mp hc))]

theorem ggm32_step100_eq (n : Nat) (hn : n < 100000000) :
    alg32.generalized_granlund_montgomery_step100 n
      = if n % 100 = 0 then some (n / 100) else none := by
  simp only [alg32.generalized_granlund_montgomery_step100]
  obtain ⟨hiff, hval⟩ := ggm_divisibility 32 2 100 25 1 42949673 42949673 n (by norm_num)
    (by norm_num) (by norm_num) (by decide) (by decide) (by norm_num) (by decide) (by decide)
    (by decide) (by omega) (by omega)
  by_cases h : n % 100 = 0
  · rw [if_pos h, if_pos (hiff.mpr h), hval h]
  · rw [if_neg h, if_neg (fun hc => h (hiff.mp hc))]

theorem ggm64_step_eq (n : Nat) (hn : n < 10000000000000000) :
    alg64.generalized_granlund_montgomery_step n
      = if n % 10 = 0 then some (n / 10) else none := by
  simp only [alg64.generalized_granlund_montgomery_step]
  obtain ⟨hiff, hval⟩ := ggm_divisibility 64 1 10 5 1 5534023222112865485
    1844674407370955163 n (by norm_num) (by norm_num) (by norm_num) (by decide) (by decide)
    (by norm_num) (by decide) (by decide) (by decide) (by omega) (by omega)
  by_cases h : n % 10 = 0
  · rw [if_pos h, if_pos (hiff.mpr h), hval h]
  · rw [if_neg h, if_neg (fun hc => h (hiff.mp hc))]

theorem ggm64_step100_eq (n : Nat) (hn : n < 10000000000000000) :
    alg64.generalized_granlund_montgomery_step100 n
      = if n % 100 = 0 then some (n / 100) else none := by
  simp only [alg64.generalized_granlund_montgomery_step100]
  obtain ⟨hiff, hval⟩ := ggm_divisibility 64 2 100 25 1 14941862699704736809
    184467440737095517 n (by norm_num) (by norm_num) (by norm_num) (by decide) (by decide)
    (by norm_num) (by decide) (by decide) (by decide) (by omega) (by omega)
  by_cases h : n % 100 = 0
  · rw [if_pos h, if_pos (hiff.mpr h), hval h]
  · rw [if_neg h, if_neg (fun hc => h (hiff.mp hc))]

set_option maxRecDepth 8192 in
theorem ggm64_branch_eq (n : Nat) (hn : n < 2 ^ 56) :
    (alg64.generalized_granlund_montgomery_8_2_1_branch n = true ↔ n % 100000000 = 0) ∧
      (n % 100000000 = 0 →
        ((n * 28999941890838049) % 2 ^ 64) >>> 8 = n / 100000000) := by
  simp only [alg64.generalized_granlund_montgomery_8_2_1_branch, decide_eq_true_eq]
  obtain ⟨hiff, hval⟩ := ggm_divisibility 64 8 100000000 390625 25 28999941890838049
    184467440969 n (by norm_num) (by norm_num) (by norm_num) (by decide) (by decide)
    (by norm_num) (by decide) (by decide) (by decide) (by omega) (by omega)
  exact ⟨hiff, hval⟩

/-! ## Assembling loops into the remove-trailing-zeros semantics -/

theorem one_loop_eq (step : Nat → Option Nat) (N n : Nat)
    (hstep : ∀ m, 1 ≤ m → m ≤ N → step m = if m % 10 = 0 then some (m / 10) else none)
    (h1 : 1 ≤ n) (h2 : n ≤ N) (hf : tz n < 40) :
    genLoop step 1 40 n 0 = some (n / 10 ^ tz n, tz n) := by
  have h := genLoop_eq_dCount step 10 1 N (by norm_num) hstep 40 n 0 h1 h2 hf
  rw [h]
  simp only [tz, Nat.zero_add, Nat.one_mul]

theorem two_one_eq (step step100 : Nat → Option Nat) (N n : Nat)
    (hstep : ∀ m, 1 ≤ m → m ≤ N → step m = if m % 10 = 0 then some (m / 10) else none)
    (hstepC : ∀ m, 1 ≤ m → m ≤ N → step100 m = if m % 100 = 0 then some (m / 100) else none)
    (h1 : 1 ≤ n) (h2 : n ≤ N) (hf : tz n < 40) :
    finalCheck step (genLoop step100 2 40 n 0) = some (n / 10 ^ tz n, tz n) := by
  have hc : dCount 100 n = tz n / 2 := by
    have h := dCount_pow 2 n (by norm_num) h1
    rwa [show (10 : Nat) ^ 2 = 100 from by norm_num] at h
  have hloop := genLoop_eq_dCount step100 100 2 N (by norm_num) hstepC 40 n 0 h1 h2 (by omega)
  rw [hloop, hc]
  have hle2 : 2 * (tz n / 2) ≤ tz n := by omega
  have hdvd2j : 10 ^ (2 * (tz n / 2)) ∣ n :=
    dvd_trans (pow_dvd_pow 10 hle2) (tz_dvd n h1)
  have hpw : (100 : Nat) ^ (tz n / 2) = 10 ^ (2 * (tz n / 2)) := by
    rw [pow_mul]
    norm_num
  have hm1 : 1 ≤ n / 100 ^ (tz n / 2) := by
    rw [hpw]
    exact (Nat.one_le_div_iff (by positivity)).mpr (Nat.le_of_dvd (by omega) hdvd2j)
  have hmN : n / 100 ^ (tz n / 2) ≤ N := le_trans (Nat.div_le_self _ _) h2
  have htzm : tz (n / 100 ^ (tz n / 2)) = tz n - 2 * (tz n / 2) := by
    rw [hpw]
    exact tz_div_pow n (2 * (tz n / 2)) h1 hdvd2j
  simp only [finalCheck, Nat.zero_add]
  rw [hstep _ hm1 hmN]
  by_cases hodd : tz n % 2 = 1
  · have htz1 : tz (n / 100 ^ (tz n / 2)) = 1 := by omega
    have h10 : 10 ∣ n / 100 ^ (tz n / 2) := by
      have hh := tz_dvd (n / 100 ^ (tz n / 2)) hm1
      rwa [htz1, pow_one] at hh
    rw [if_pos (Nat.mod_eq_zero_of_dvd h10)]
    have he : 2 * (tz n / 2) + 1 = tz n := by omega
    have hval : n / 100 ^ (tz n / 2) / 10 = n / 10 ^ tz n := by
      rw [hpw, Nat.div_div_eq_div_mul, ← pow_succ, he]
    rw [hval, he]
  · have htz0 : tz (n / 100 ^ (tz n / 2)) = 0 := by omega
    have h10 : ¬ (n / 100 ^ (tz n / 2)) % 10 = 0 := by
      intro hc10
      have hd10 : 10 ^ 1 ∣ n / 100 ^ (tz n / 2) := by
        rw [pow_one]
        exact Nat.dvd_of_mod_eq_zero hc10
      have := tz_max _ 1 hm1 hd10
      omega
    rw [if_neg h10]
    have he : 2 * (tz n / 2) = tz n := by omega
    have hval : n / 100 ^ (tz n / 2) = n / 10 ^ tz n := by
      rw [hpw, he]
    rw [hval, he]

theorem tz40_32 (n : Nat) (h1 : 1 ≤ n) (h2 : n < 100000000) : tz n < 40 := by
  have h := tz_lt_of_lt_pow n 8 h1 (by omega)
  omega

theorem tz40_64 (n : Nat) (h1 : 1 ≤ n) (h2 : n < 10000000000000000) : tz n < 40 := by
  have h := tz_lt_of_lt_pow n 16 h1 (by omega)
  omega

theorem naive32_rtz (n : Nat) (h1 : 1 ≤ n) (h2 : n < 100000000) :
    alg32.naive n = some (n / 10 ^ tz n, tz n) :=
  one_loop_eq alg32.naive_step 99999999 n (fun _ _ _ => rfl) h1 (by omega) (tz40_32 n h1 h2)

theorem naive32_21_rtz (n : Nat) (h1 : 1 ≤ n) (h2 : n < 100000000) :
    alg32.naive_2_1 n = some (n / 10 ^ tz n, tz n) :=
  two_one_eq alg32.naive_step alg32.naive_step100 99999999 n (fun _ _ _ => rfl)
    (fun _ _ _ => rfl) h1 (by omega) (tz40_32 n h1 h2)

theorem gm32_rtz (n : Nat) (h1 : 1 ≤ n) (h2 : n < 100000000) :
    alg32.granlund_montgomery n = some (n / 10 ^ tz n, tz n) :=
  one_loop_eq alg32.granlund_montgomery_step 99999999 n
    (fun m _ hm => gm32_step_eq m (by omega)) h1 (by omega) (tz40_32 n h1 h2)

theorem gm32_21_rtz (n : Nat) (h1 : 1 ≤ n) (h2 : n < 100000000) :
    alg32.granlund_montgomery_2_1 n = some (n / 10 ^ tz n, tz n) :=
  two_one_eq alg32.granlund_montgomery_step alg32.granlund_montgomery_step100 99999999 n
    (fun m _ hm => gm32_step_eq m (by omega)) (fun m _ hm => gm32_step100_eq m (by omega))
    h1 (by omega) (tz40_32 n h1 h2)

theorem lemire32_rtz (n : Nat) (h1 : 1 ≤ n) (h2 : n < 100000000) :
    alg32.lemire n = some (n / 10 ^ tz n, tz n) :=
  one_loop_eq alg32.lemire_step 99999999 n
    (fun m _ hm => lemire32_step_eq m (by omega)) h1 (by omega) (tz40_32 n h1 h2)

theorem lemire32_21_rtz (n : Nat) (h1 : 1 ≤ n) (h2 : n < 100000000) :
    alg32.lemire_2_1 n = some (n / 10 ^ tz n, tz n) :=
  two_one_eq alg32.lemire_step alg32.lemire_step100 99999999 n
    (fun m _ hm => lemire32_step_eq m (by omega))
    (fun m _ hm => lemire32_step100_eq m (by omega)) h1 (by omega) (tz40_32 n h1 h2)

theorem ggm32_rtz (n : Nat) (h1 : 1 ≤ n) (h2 : n < 100000000) :
    alg32.generalized_granlund_montgomery n = some (n / 10 ^ tz n, tz n) :=
  one_loop_eq alg32.generalized_granlund_montgomery_step 99999999 n
    (fun m _ hm => ggm32_step_eq m (by omega)) h1 (by omega) (tz40_32 n h1 h2)

theorem ggm32_21_rtz (n : Nat) (h1 : 1 ≤ n) (h2 : n < 100000000) :
    alg32.generalized_granlund_montgomery_2_1 n = some (n / 10 ^ tz n, tz n) :=
  two_one_eq alg32.generalized_granlund_montgomery_step
    alg32.generalized_granlund_montgomery_step100 99999999 n
    (fun m _ hm => ggm32_step_eq m (by omega))
    (fun m _ hm => ggm32_step100_eq m (by omega)) h1 (by omega) (tz40_32 n h1 h2)

theorem naive64_rtz (n : Nat) (h1 : 1 ≤ n) (h2 : n < 10000000000000000) :
    alg64.naive n = some (n / 10 ^ tz n, tz n) :=
  one_loop_eq alg64.naive_step 9999999999999999 n (fun _ _ _ => rfl) h1 (by omega)
    (tz40_64 n h1 h2)

theorem naive64_21_rtz (n : Nat) (h1 : 1 ≤ n) (h2 : n < 10000000000000000) :
    alg64.naive_2_1 n = some (n / 10 ^ tz n, tz n) :=
  two_one_eq alg64.naive_step alg64.naive_step100 9999999999999999 n (fun _ _ _ => rfl)
    (fun _ _ _ => rfl) h1 (by omega) (tz40_64 n h1 h2)

theorem gm64_rtz (n : Nat) (h1 : 1 ≤ n) (h2 : n < 10000000000000000) :
    alg64.granlund_montgomery n = some (n / 10 ^ tz n, tz n) :=
  one_loop_eq alg64.granlund_montgomery_step 9999999999999999 n
    (fun m _ hm => gm64_step_eq m (by omega)) h1 (by omega) (tz40_64 n h1 h2)

theorem gm64_21_rtz (n : Nat) (h1 : 1 ≤ n) (h2 : n < 10000000000000000) :
    alg64.granlund_montgomery_2_1 n = some (n / 10 ^ tz n, tz n) :=
  two_one_eq alg64.granlund_montgomery_step alg64.granlund_montgomery_step100
    9999999999999999 n (fun m _ hm => gm64_step_eq m (by omega))
    (fun m _ hm => gm64_step100_eq m (by omega)) h1 (by omega) (tz40_64 n h1 h2)

theorem lemire64_rtz (n : Nat) (h1 : 1 ≤ n) (h2 : n < 10000000000000000) :
    alg64.lemire n = some (n / 10 ^ tz n, tz n) :=
  one_loop_eq alg64.lemire_step 9999999999999999 n
    (fun m _ hm => lemire64_step_eq m (by omega)) h1 (by omega) (tz40_64 n h1 h2)

theorem lemire64_21_rtz (n : Nat) (h1 : 1 ≤ n) (h2 : n < 10000000000000000) :
    alg64.lemire_2_1 n = some (n / 10 ^ tz n, tz n) :=
  two_one_eq alg64.lemire_step alg64.lemire_step100 9999999999999999 n
    (fun m _ hm => lemire64_step_eq m (by omega))
    (fun m _ hm => lemire64_step100_eq m (by omega)) h1 (by omega) (tz40_64 n h1 h2)

theorem ggm64_rtz (n : Nat) (h1 : 1 ≤ n) (h2 : n < 10000000000000000) :
    alg64.generalized_granlund_montgomery n = some (n / 10 ^ tz n, tz n) :=
  one_loop_eq alg64.generalized_granlund_montgomery_step 9999999999999999 n
    (fun m _ hm => ggm64_step_eq m (by omega)) h1 (by omega) (tz40_64 n h1 h2)

theorem ggm64_21_rtz (n : Nat) (h1 : 1 ≤ n) (h2 : n < 10000000000000000) :
    alg64.generalized_granlund_montgomery_2_1 n = some (n / 10 ^ tz n, tz n) :=
  two_one_eq alg64.generalized_granlund_montgomery_step
    alg64.generalized_granlund_montgomery_step100 9999999999999999 n
    (fun m _ hm => ggm64_step_eq m (by omega))
    (fun m _ hm => ggm64_step100_eq m (by omega)) h1 (by omega) (tz40_64 n h1 h2)

theorem eight_branch_compose (f32 : Nat → Option (Nat × Nat)) (n : Nat)
    (h1 : 1 ≤ n) (h2 : n < 10000000000000000) (hdvd : n % 100000000 = 0)
    (hf : f32 (n / 100000000)
      = some (n / 100000000 / 10 ^ tz (n / 100000000), tz (n / 100000000))) :
    (match f32 (n / 100000000) with
      | some (m, s) => some (m % 2 ^ 64, s + 8)
      | none => none) = some (n / 10 ^ tz n, tz n) := by
  have hdvd8 : 10 ^ 8 ∣ n := by
    rw [show (10 : Nat) ^ 8 = 100000000 from by norm_num]
    exact Nat.dvd_of_mod_eq_zero hdvd
  have h8t : 8 ≤ tz n := tz_max n 8 h1 hdvd8
  have htzq : tz (n / 100000000) = tz n - 8 := by
    have h := tz_div_pow n 8 h1 hdvd8
    rwa [show (10 : Nat) ^ 8 = 100000000 from by norm_num] at h
  rw [hf]
  simp only [htzq]
  have hexp : 8 + (tz n - 8) = tz n := by omega
  have hval : n / 100000000 / 10 ^ (tz n - 8) = n / 10 ^ tz n := by
    rw [show (100000000 : Nat) = 10 ^ 8 from by norm_num, Nat.div_div_eq_div_mul, ← pow_add,
      hexp]
  rw [hval]
  have hlt : n / 10 ^ tz n < 2 ^ 64 := by
    have h := Nat.div_le_self n (10 ^ tz n)
    omega
  rw [Nat.mod_eq_of_lt hlt]
  have hcnt : tz n - 8 + 8 = tz n := by omega
  rw [hcnt]

theorem naive64_821_rtz (n : Nat) (h1 : 1 ≤ n) (h2 : n < 10000000000000000) :
    alg64.naive_8_2_1 n = some (n / 10 ^ tz n, tz n) := by
  unfold alg64.naive_8_2_1
  by_cases hb : n % 100000000 = 0
  · rw [if_pos (show alg64.naive_8_2_1_branch n = true from by
      simp [alg64.naive_8_2_1_branch, hb])]
    have hdel : alg64.naive_8_2_1_delegate n = n / 100000000 := by
      unfold alg64.naive_8_2_1_delegate
      exact Nat.mod_eq_of_lt (by omega)
    rw [hdel]
    have hq1 : 1 ≤ n / 100000000 := (Nat.one_le_div_iff (by norm_num)).mpr
      (Nat.le_of_dvd (by omega) (Nat.dvd_of_mod_eq_zero hb))
    exact eight_branch_compose alg32.naive_2_1 n h1 h2 hb
      (naive32_21_rtz (n / 100000000) hq1 (by omega))
  · rw [if_neg (show ¬ alg64.naive_8_2_1_branch n = true from by
      simp [alg64.naive_8_2_1_branch, hb])]
    exact naive64_21_rtz n h1 h2

theorem gm64_821_rtz (n : Nat) (h1 : 1 ≤ n) (h2 : n < 10000000000000000) :
    alg64.granlund_montgomery_8_2_1 n = some (n / 10 ^ tz n, tz n) := by
  unfold alg64.granlund_montgomery_8_2_1
  obtain ⟨hbiff, hbval⟩ := gm64_branch_eq n (by omega)
  by_cases hb : n % 100000000 = 0
  · rw [if_pos (hbiff.mpr hb)]
    have hdel : alg64.granlund_montgomery_8_2_1_delegate n = n / 100000000 := by
      unfold alg64.granlund_montgomery_8_2_1_delegate
      rw [hbval hb]
      exact Nat.mod_eq_of_lt (by omega)
    rw [hdel]
    have hq1 : 1 ≤ n / 100000000 := (Nat.one_le_div_iff (by norm_num)).mpr
      (Nat.le_of_dvd (by omega) (Nat.dvd_of_mod_eq_zero hb))
    exact eight_branch_compose alg32.granlund_montgomery_2_1 n h1 h2 hb
      (gm32_21_rtz (n / 100000000) hq1 (by omega))
  · rw [if_neg (fun hc => hb (hbiff.mp hc))]
    exact gm64_21_rtz n h1 h2

theorem lemire64_821_rtz (n : Nat) (h1 : 1 ≤ n) (h2 : n < 10000000000000000) :
    alg64.lemire_8_2_1 n = some (n / 10 ^ tz n, tz n) := by
  unfold alg64.lemire_8_2_1
  obtain ⟨hbiff, hbval⟩ := lemire64_branch_eq n h2
  by_cases hb : n % 100000000 = 0
  · rw [if_pos (hbiff.mpr hb), hbval hb]
    have hq1 : 1 ≤ n / 100000000 := (Nat.one_le_div_iff (by norm_num)).mpr
      (Nat.le_of_dvd (by omega) (Nat.dvd_of_mod_eq_zero hb))
    exact eight_branch_compose alg32.lemire_2_1 n h1 h2 hb
      (lemire32_21_rtz (n / 100000000) hq1 (by omega))
  · rw [if_neg (fun hc => hb (hbiff.mp hc))]
    exact lemire64_21_rtz n h1 h2

theorem ggm64_821_rtz (n : Nat) (h1 : 1 ≤ n) (h2 : n < 10000000000000000) :
    alg64.generalized_granlund_montgomery_8_2_1 n = some (n / 10 ^ tz n, tz n) := by
  unfold alg64.generalized_granlund_montgomery_8_2_1
  obtain ⟨hbiff, hbval⟩ := ggm64_branch_eq n (by omega)
  by_cases hb : n % 100000000 = 0
  · rw [if_pos (hbiff.mpr hb)]
    have hdel : alg64.generalized_granlund_montgomery_8_2_1_delegate n = n / 100000000 := by
      unfold alg64.generalized_granlund_montgomery_8_2_1_delegate
      rw [hbval hb]
      exact Nat.mod_eq_of_lt (by omega)
    rw [hdel]
    have hq1 : 1 ≤ n / 100000000 := (Nat.one_le_div_iff (by norm_num)).mpr
      (Nat.le_of_dvd (by omega) (Nat.dvd_of_mod_eq_zero hb))
    exact eight_branch_compose alg32.generalized_granlund_montgomery_2_1 n h1 h2 hb
      (ggm32_21_rtz (n / 100000000) hq1 (by omega))
  · rw [if_neg (fun hc => hb (hbiff.mp hc))]
    exact ggm64_21_rtz n h1 h2

theorem equiv32 (f : Nat → Option (Nat × Nat)) (hf : f ∈ family32nb) (n : Nat)
    (h1 : 1 ≤ n) (h2 : n < 100000000) : f n = some (n / 10 ^ tz n, tz n) := by
  simp only [family32nb, List.mem_cons, List.not_mem_nil, or_false] at hf
  rcases hf with rfl | rfl | rfl | rfl | rfl | rfl | rfl | rfl
  · exact naive32_rtz n h1 h2
  · exact gm32_rtz n h1 h2
  · exact lemire32_rtz n h1 h2
  · exact ggm32_rtz n h1 h2
  · exact naive32_21_rtz n h1 h2
  · exact gm32_21_rtz n h1 h2
  · exact lemire32_21_rtz n h1 h2
  · exact ggm32_21_rtz n h1 h2

theorem equiv64 (f : Nat → Option (Nat × Nat)) (hf : f ∈ family64nb) (n : Nat)
    (h1 : 1 ≤ n) (h2 : n < 10000000000000000) : f n = some (n / 10 ^ tz n, tz n) := by
  simp only [family64nb, List.mem_cons, List.not_mem_nil, or_false] at hf
  rcases hf with rfl | rfl | rfl | rfl | rfl | rfl | rfl | rfl | rfl | rfl | rfl | rfl
  · exact naive64_rtz n h1 h2
  · exact gm64_rtz n h1 h2
  · exact lemire64_rtz n h1 h2
  · exact ggm64_rtz n h1 h2
  · exact naive64_21_rtz n h1 h2
  · exact gm64_21_rtz n h1 h2
  · exact lemire64_21_rtz n h1 h2
  · exact ggm64_21_rtz n h1 h2
  · exact naive64_821_rtz n h1 h2
  · exact gm64_821_rtz n h1 h2
  · exact lemire64_821_rtz n h1 h2
  · exact ggm64_821_rtz n h1 h2

/-! ## The sample generator and the benchmark driver -/

theorem compute_power_aux_eq (W : Nat) (hW : 1 ≤ W) :
    ∀ fuel res a k, k ≤ fuel → res < 2 ^ W →
      compute_power_aux W fuel res a k = res * a ^ k % 2 ^ W := by
  have hM : 1 < 2 ^ W := Nat.one_lt_two_pow (by omega)
  intro fuel
  induction fuel with
  | zero =>
    intro res a k hk hres
    have hk0 : k = 0 := by omega
    subst hk0
    simp [compute_power_aux, Nat.mod_eq_of_lt hres]
  | succ fuel ih =>
    intro res a k hk hres
    rw [compute_power_aux]
    by_cases hk0 : k = 0
    · subst hk0
      simp [Nat.mod_eq_of_lt hres]
    · rw [if_neg hk0]
      have hk2 : k / 2 ≤ fuel := by omega
      by_cases hodd : k % 2 ≠ 0
      · rw [if_pos hodd]
        rw [ih ((res * a) % 2 ^ W) ((a * a) % 2 ^ W) (k / 2) hk2 (Nat.mod_lt _ (by omega))]
        rw [Nat.mod_mul_mod, Nat.mul_mod (res * a), ← Nat.pow_mod, ← Nat.mul_mod]
        have hpow : a ^ k = (a * a) ^ (k / 2) * a := by
          conv_lhs => rw [show k = 2 * (k / 2) + 1 from by omega]
          rw [pow_succ, pow_mul, pow_two]
        rw [show res * a * (a * a) ^ (k / 2) = res * ((a * a) ^ (k / 2) * a) from by ring,
          ← hpow]
      · rw [if_neg hodd]
        rw [ih res ((a * a) % 2 ^ W) (k / 2) hk2 hres]
        rw [Nat.mul_mod res, ← Nat.pow_mod, ← Nat.mul_mod]
        have hpow : a ^ k = (a * a) ^ (k / 2) := by
          conv_lhs => rw [show k = 2 * (k / 2) from by omega]
          rw [pow_mul, pow_two]
        rw [← hpow]

theorem compute_power_eq (W a k : Nat) (hW : 1 ≤ W) :
    compute_power W a k = a ^ k % 2 ^ W := by
  unfold compute_power
  rw [compute_power_aux_eq W hW k 1 a k (Nat.le_refl k)
    (Nat.one_lt_two_pow (by omega)), Nat.one_mul]

theorem genLoop_zero_diverges (step : Nat → Option Nat) (σ : Nat) (h0 : step 0 = some 0) :
    ∀ fuel s, genLoop step σ fuel 0 s = none := by
  intro fuel
  induction fuel with
  | zero => intro s; rfl
  | succ fuel ih =>
    intro s
    rw [genLoop, h0]
    exact ih (s + σ)

theorem benchmark_model_mismatch (cands : List (String × (Nat → Option (Nat × Nat))))
    (samples : List Nat) (sample : Nat) (h : run_check cands samples = some sample) :
    benchmark_model cands samples
      = (some ((cands.drop 1).map fun c => (c.1, c.2 sample)), false) := by
  unfold benchmark_model
  rw [h]
  rfl

theorem benchmark_model_clean (cands : List (String × (Nat → Option (Nat × Nat))))
    (samples : List Nat) (h : run_check cands samples = none) :
    benchmark_model cands samples = (none, true) := by
  unfold benchmark_model
  rw [h]

theorem main_model_exit_zero (samples32 samples64 : List Nat) :
    (main_model samples32 samples64).2.2 = 0 := rfl

theorem main_model_runs_both (samples32 samples64 : List Nat) :
    main_model samples32 samples64
      = (benchmark_model candidates32 samples32, benchmark_model candidates64 samples64, 0) :=
  rfl

/-! ## Claim theorems -/

/-- C1 (counterexample): the equivalence over the full input range [0, 2^W - 1] fails:
at n = 1073741830 (a multiple of 10 above the 32-bit Lemire validity bound) the Lemire
algorithm disagrees with the naive reference. -/
theorem c1_equivalence_counterexample :
    alg32.lemire 1073741830 ≠ alg32.naive 1073741830 ∧
    alg32.naive 1073741830 = some (107374183, 1) ∧
    alg32.lemire 1073741830 = some (1073741830, 0) := by decide

/-- C1 (amended): on the input range the benchmark actually exercises
(1 ≤ n < 10^8 for 32 bits, 1 ≤ n < 10^16 for 64 bits) every non-baseline algorithm
returns the identical (trimmed_number, number_of_removed_zeros) pair, equal to the
reference semantics of the naive modulo-10 loop. -/
theorem c1_equivalence :
    (∀ f ∈ family32nb, ∀ n, 1 ≤ n → n < 100000000 → f n = some (rtz n)) ∧
    (∀ f ∈ family64nb, ∀ n, 1 ≤ n → n < 10000000000000000 → f n = some (rtz n)) := by
  constructor
  · intro f hf n h1 h2
    simp only [rtz]
    exact equiv32 f hf n h1 h2
  · intro f hf n h1 h2
    simp only [rtz]
    exact equiv64 f hf n h1 h2

theorem c1_equivalence_witness : alg32.lemire 1000 = some (1, 3) := by
  have h := c1_equivalence.1 alg32.lemire (by simp [family32nb]) 1000 (by norm_num)
    (by norm_num)
  rw [h]
  decide

/-- C2: for both widths, the stride-1 Granlund-Montgomery test is exact on the whole
input range: the rotated product is below the threshold exactly when n is divisible
by 10, and in that case the rotated product is the quotient n / 10. -/
theorem c2_gm_stride1 :
    (∀ n, n < 2 ^ 32 →
      ((rotr 32 ((n * 3435973837) % 2 ^ 32) 1 < 429496730 ↔ n % 10 = 0) ∧
        (n % 10 = 0 → rotr 32 ((n * 3435973837) % 2 ^ 32) 1 = n / 10))) ∧
    (∀ n, n < 2 ^ 64 →
      ((rotr 64 ((n * 14757395258967641293) % 2 ^ 64) 1 < 1844674407370955162 ↔
          n % 10 = 0) ∧
        (n % 10 = 0 →
          rotr 64 ((n * 14757395258967641293) % 2 ^ 64) 1 = n / 10))) := by
  constructor
  · intro n hn
    have hxlt : (n * 3435973837) % 2 ^ 32 < 2 ^ 32 := Nat.mod_lt _ (by norm_num)
    rw [rotr_eq_arith 32 5 _ 1 (by norm_num) hxlt]
    obtain ⟨hiff, hval⟩ := gm_divisibility 32 1 10 5 3435973837 429496730 n (by norm_num)
      (by norm_num) (by norm_num) (by norm_num) (by decide) (by decide) (by decide)
      (by decide) (by decide) hn
    simp only [show (1 : Nat) % 32 = 1 from rfl, show (32 : Nat) - 1 = 31 from rfl]
      at hiff hval ⊢
    exact ⟨hiff, hval⟩
  · intro n hn
    have hxlt : (n * 14757395258967641293) % 2 ^ 64 < 2 ^ 64 := Nat.mod_lt _ (by norm_num)
    rw [rotr_eq_arith 64 6 _ 1 (by norm_num) hxlt]
    obtain ⟨hiff, hval⟩ := gm_divisibility 64 1 10 5 14757395258967641293
      1844674407370955162 n (by norm_num) (by norm_num) (by norm_num) (by norm_num)
      (by decide) (by decide) (by decide) (by decide) (by decide) hn
    simp only [show (1 : Nat) % 64 = 1 from rfl, show (64 : Nat) - 1 = 63 from rfl]
      at hiff hval ⊢
    exact ⟨hiff, hval⟩

theorem c2_gm_stride1_witness : rotr 32 ((50 * 3435973837) % 2 ^ 32) 1 = 5 :=
  ((c2_gm_stride1.1 50 (by norm_num)).2 (by norm_num)).trans (by norm_num)

/-- C3 (counterexample): at n = 10^17 the Lemire 8-2-1 variant does NOT take its
width-narrowing branch, although 10^17 is divisible by 10^8: the input exceeds the
branch test's validity bound 47795296599999999. -/
theorem c3_scenarios_counterexample :
    alg64.lemire_8_2_1_branch 100000000000000000 = false ∧
    (100000000000000000 : Nat) % 100000000 = 0 := by decide

/-- C3 (amended): every non-baseline 64-bit algorithm returns (1, 17) at n = 10^17;
the naive and Granlund-Montgomery 8-2-1 variants take their width-narrowing branch
there, while lemire_8_2_1 and generalized_granlund_montgomery_8_2_1 fall through to
their 2-1 paths (10^17 exceeds those branch tests' validity bounds) yet still return
(1, 17); n = 1000 gives (1, 3) for every non-baseline 32-bit algorithm and n = 7
gives (7, 0) for every non-baseline algorithm at both widths. -/
theorem c3_scenarios :
    (∀ f ∈ family64nb, f 100000000000000000 = some (1, 17)) ∧
    alg64.naive_8_2_1_branch 100000000000000000 = true ∧
    alg64.granlund_montgomery_8_2_1_branch 100000000000000000 = true ∧
    alg64.generalized_granlund_montgomery_8_2_1_branch 100000000000000000 = false ∧
    alg64.lemire_8_2_1_branch 100000000000000000 = false ∧
    (∀ f ∈ family32nb, f 1000 = some (1, 3)) ∧
    (∀ f ∈ family32nb, f 7 = some (7, 0)) ∧
    (∀ f ∈ family64nb, f 7 = some (7, 0)) := by decide

/-- C4 (counterexample): at n = 10^18 the quotient n / 10^8 = 10^10 does not fit in
32 bits, the delegated value is a truncation, and naive_8_2_1 returns
(1410065408, 8) instead of (1, 18) (which the naive reference returns). -/
theorem c4_delegation_counterexample :
    alg64.naive_8_2_1 1000000000000000000 = some (1410065408, 8) ∧
    alg64.naive 1000000000000000000 = some (1, 18) ∧
    alg64.naive_8_2_1_delegate 1000000000000000000 = 1410065408 := by decide

/-- C4 (amended): for inputs below 10^16 (the benchmark's 64-bit domain), whenever an
8-2-1 variant's divisibility-by-10^8 test succeeds, the 32-bit value it delegates is
the exact quotient n / 10^8; consequently every non-baseline 64-bit algorithm returns
(1, 15) at n = 10^15 and every non-baseline 32-bit algorithm returns (1, 9) at
n = 10^9. -/
theorem c4_delegation :
    (∀ n, n < 10000000000000000 → alg64.naive_8_2_1_branch n = true →
      alg64.naive_8_2_1_delegate n = n / 100000000) ∧
    (∀ n, n < 10000000000000000 → alg64.granlund_montgomery_8_2_1_branch n = true →
      alg64.granlund_montgomery_8_2_1_delegate n = n / 100000000) ∧
    (∀ n, n < 10000000000000000 → alg64.lemire_8_2_1_branch n = true →
      alg64.lemire_8_2_1_delegate n = n / 100000000) ∧
    (∀ n, n < 10000000000000000 →
      alg64.generalized_granlund_montgomery_8_2_1_branch n = true →
      alg64.generalized_granlund_montgomery_8_2_1_delegate n = n / 100000000) ∧
    (∀ f ∈ family64nb, f 1000000000000000 = some (1, 15)) ∧
    (∀ f ∈ family32nb, f 1000000000 = some (1, 9)) := by
  refine ⟨?_, ?_, ?_, ?_, by decide, by decide⟩
  · intro n hn _
    unfold alg64.naive_8_2_1_delegate
    exact Nat.mod_eq_of_lt (by omega)
  · intro n hn hb
    obtain ⟨hbiff, hbval⟩ := gm64_branch_eq n (by omega)
    unfold alg64.granlund_montgomery_8_2_1_delegate
    rw [hbval (hbiff.mp hb)]
    exact Nat.mod_eq_of_lt (by omega)
  · intro n hn hb
    obtain ⟨hbiff, hbval⟩ := lemire64_branch_eq n hn
    exact hbval (hbiff.mp hb)
  · intro n hn hb
    obtain ⟨hbiff, hbval⟩ := ggm64_branch_eq n (by omega)
    unfold alg64.generalized_granlund_montgomery_8_2_1_delegate
    rw [hbval (hbiff.mp hb)]
    exact Nat.mod_eq_of_lt (by omega)

theorem c4_delegation_witness : alg64.naive_8_2_1_delegate 500000000 = 5 := by
  have h := c4_delegation.1 500000000 (by norm_num) (by decide)
  rw [h]

/-- C5 (counterexample): the naive modulo-10 loop does not terminate on n = 0: for
every fuel the loop body keeps firing (0 is divisible by 10 with quotient 0), so no
result is ever produced. -/
theorem c5_zero_counterexample : naive32_loop_diverges_at_zero :=
  genLoop_zero_diverges alg32.naive_step 1 rfl

/-- C5 (amended): no non-baseline algorithm terminates on n = 0: every divisibility
step maps 0 to quotient 0, so each loop runs forever (none at every fuel, in
particular at the modelled fuel of 40); only the baseline returns (0, 0). -/
theorem c5_zero_behavior :
    (∀ step σ, step 0 = some 0 → ∀ fuel s, genLoop step σ fuel 0 s = none) ∧
    alg32.naive_step 0 = some 0 ∧ alg32.naive_step100 0 = some 0 ∧
    alg32.granlund_montgomery_step 0 = some 0 ∧
    alg32.granlund_montgomery_step100 0 = some 0 ∧
    alg32.lemire_step 0 = some 0 ∧ alg32.lemire_step100 0 = some 0 ∧
    alg32.generalized_granlund_montgomery_step 0 = some 0 ∧
    alg32.generalized_granlund_montgomery_step100 0 = some 0 ∧
    alg64.naive_step 0 = some 0 ∧ alg64.naive_step100 0 = some 0 ∧
    alg64.granlund_montgomery_step 0 = some 0 ∧
    alg64.granlund_montgomery_step100 0 = some 0 ∧
    alg64.lemire_step 0 = some 0 ∧ alg64.lemire_step100 0 = some 0 ∧
    alg64.generalized_granlund_montgomery_step 0 = some 0 ∧
    alg64.generalized_granlund_montgomery_step100 0 = some 0 ∧
    (∀ f ∈ family32nb, f 0 = none) ∧ (∀ f ∈ family64nb, f 0 = none) ∧
    alg32.baseline 0 = some (0, 0) ∧ alg64.baseline 0 = some (0, 0) := by
  refine ⟨fun step σ h0 => genLoop_zero_diverges step σ h0, ?_⟩
  decide

theorem c5_zero_behavior_witness :
    genLoop alg32.granlund_montgomery_step 1 5 0 0 = none :=
  c5_zero_behavior.1 alg32.granlund_montgomery_step 1 (by decide) 5 0

/-- C6: the portable four-way 32-bit decomposition of umul128 agrees bit-for-bit with
the native 128-bit multiply path, and the (high, low) pair it returns encodes the
mathematically exact product: high * 2^64 + low = x * y. -/
theorem c6_umul128 : ∀ x y, x < 2 ^ 64 → y < 2 ^ 64 →
    wuint.umul128_generic x y = wuint.umul128 x y ∧
    (wuint.umul128 x y).1 * 2 ^ 64 + (wuint.umul128 x y).2 = x * y := by
  intro x y hx hy
  have h1 := umul128_generic_eq x y hx hy
  have h2 := umul128_eq x y hx hy
  constructor
  · rw [h1, h2]
  · rw [h2]
    simp only []
    rw [Nat.mul_comm]
    exact Nat.div_add_mod (x * y) (2 ^ 64)

theorem c6_umul128_witness :
    wuint.umul128_generic (2 ^ 64 - 1) (2 ^ 64 - 1)
        = wuint.umul128 (2 ^ 64 - 1) (2 ^ 64 - 1) ∧
      (wuint.umul128 (2 ^ 64 - 1) (2 ^ 64 - 1)).1 * 2 ^ 64
          + (wuint.umul128 (2 ^ 64 - 1) (2 ^ 64 - 1)).2
        = (2 ^ 64 - 1) * (2 ^ 64 - 1) :=
  c6_umul128 (2 ^ 64 - 1) (2 ^ 64 - 1) (by norm_num) (by norm_num)

/-- C7 (counterexample): feeding the checker a sample on which a candidate disagrees
with the reference (1073741830, where 32-bit Lemire fails) shows the claim false: the
mismatch is detected and that width's timing is skipped, but the 64-bit benchmark
still runs in full and the process exit code is 0, not an abnormal signal. -/
theorem c7_mismatch_counterexample :
    run_check candidates32 [1073741830] = some 1073741830 ∧
    (benchmark_model candidates32 [1073741830]).2 = false ∧
    (benchmark_model candidates64 [7]).2 = true ∧
    (main_model [1073741830] [7]).2.2 = 0 := by decide

/-- C7 (amended): on the first mismatching sample the checker emits a report listing
each non-baseline candidate's name and output pair (the sample value itself is not
part of the report) and skips the timing phase of that width's benchmark call only;
main always runs both width benchmarks in sequence and always exits with code 0. -/
theorem c7_mismatch_behavior :
    (∀ cands samples sample, run_check cands samples = some sample →
      benchmark_model cands samples = (some (error_report cands sample), false)) ∧
    (∀ cands samples, run_check cands samples = none →
      benchmark_model cands samples = (none, true)) ∧
    (∀ samples32 samples64, main_model samples32 samples64
      = (benchmark_model candidates32 samples32,
          benchmark_model candidates64 samples64, 0)) := by
  refine ⟨?_, ?_, fun s32 s64 => rfl⟩
  · intro cands samples sample h
    unfold benchmark_model
    rw [h]
  · intro cands samples h
    unfold benchmark_model
    rw [h]

theorem c7_mismatch_behavior_witness :
    benchmark_model candidates32 [1073741830]
      = (some (error_report candidates32 1073741830), false) :=
  c7_mismatch_behavior.1 candidates32 [1073741830] 1073741830 (by decide)

/-- C8: on the benchmark input ranges, applying any algorithm (baseline included) to
the trimmed_number of its own output removes nothing further: the second application
returns the same trimmed_number with a removed-zeros count of 0. -/
theorem c8_idempotence :
    (∀ f ∈ (alg32.baseline :: family32nb), ∀ n, 1 ≤ n → n < 100000000 →
      ∃ m s, f n = some (m, s) ∧ f m = some (m, 0)) ∧
    (∀ f ∈ (alg64.baseline :: family64nb), ∀ n, 1 ≤ n → n < 10000000000000000 →
      ∃ m s, f n = some (m, s) ∧ f m = some (m, 0)) := by
  constructor
  · intro f hf n h1 h2
    rcases List.mem_cons.mp hf with rfl | hf2
    · exact ⟨n, 0, rfl, rfl⟩
    · have hm1 : 1 ≤ n / 10 ^ tz n :=
        (Nat.one_le_div_iff (by positivity)).mpr (Nat.le_of_dvd (by omega) (tz_dvd n h1))
      have hm2 : n / 10 ^ tz n < 100000000 := lt_of_le_of_lt (Nat.div_le_self _ _) h2
      have htzm : tz (n / 10 ^ tz n) = 0 := (tz_zero_iff _ hm1).mpr (tz_not_dvd n h1)
      refine ⟨n / 10 ^ tz n, tz n, equiv32 f hf2 n h1 h2, ?_⟩
      rw [equiv32 f hf2 (n / 10 ^ tz n) hm1 hm2, htzm, pow_zero, Nat.div_one]
  · intro f hf n h1 h2
    rcases List.mem_cons.mp hf with rfl | hf2
    · exact ⟨n, 0, rfl, rfl⟩
    · have hm1 : 1 ≤ n / 10 ^ tz n :=
        (Nat.one_le_div_iff (by positivity)).mpr (Nat.le_of_dvd (by omega) (tz_dvd n h1))
      have hm2 : n / 10 ^ tz n < 10000000000000000 :=
        lt_of_le_of_lt (Nat.div_le_self _ _) h2
      have htzm : tz (n / 10 ^ tz n) = 0 := (tz_zero_iff _ hm1).mpr (tz_not_dvd n h1)
      refine ⟨n / 10 ^ tz n, tz n, equiv64 f hf2 n h1 h2, ?_⟩
      rw [equiv64 f hf2 (n / 10 ^ tz n) hm1 hm2, htzm, pow_zero, Nat.div_one]

theorem c8_idempotence_witness :
    ∃ m s, alg32.naive 500 = some (m, s) ∧ alg32.naive m = some (m, 0) :=
  c8_idempotence.1 alg32.naive (by simp [family32nb]) 500 (by norm_num) (by norm_num)

/-- C9 (counterexample): the claim fails for parameters exceeding the width: with
W = 32, max_digits = 10, a valid draw (d = 10, t = 1, L = 999999999) makes the final
multiplication wrap modulo 2^32; the emitted sample is 1410065398, not
999999999 * 10 = 9999999990, and it has no trailing zero at all. -/
theorem c9_generator_counterexample :
    sample_draw_valid 32 10 10 1 999999999 ∧
    generate_sample 32 1 999999999 = 1410065398 ∧
    999999999 * 10 ^ 1 = 9999999990 ∧
    ¬ 10 ^ 1 ∣ generate_sample 32 1 999999999 := by
  unfold sample_draw_valid
  decide

/-- C9 (amended): provided 10^max_digits < 2^W (as in both benchmark configurations,
W = 32 with max_digits = 8 and W = 64 with max_digits = 16), every valid draw
(d, t, L) — d in [1, max_digits], t in [0, d-1], L in the range the code computes —
produces the sample L * 10^t exactly: a positive integer with exactly d decimal
digits and at least t trailing zeros. -/
theorem c9_generator :
    ∀ W maxD d t L, 1 ≤ W → 10 ^ maxD < 2 ^ W → sample_draw_valid W maxD d t L →
      generate_sample W t L = L * 10 ^ t ∧
      10 ^ (d - 1) ≤ generate_sample W t L ∧
      generate_sample W t L < 10 ^ d ∧
      10 ^ t ∣ generate_sample W t L ∧
      0 < generate_sample W t L := by
  intro W maxD d t L hW hcap hvalid
  obtain ⟨hd1, hdmax, ht, hLlo, hLhi⟩ := hvalid
  have hp : ∀ j, j ≤ maxD → compute_power W 10 j = 10 ^ j := by
    intro j hj
    rw [compute_power_eq W 10 j hW]
    apply Nat.mod_eq_of_lt
    calc (10 : Nat) ^ j ≤ 10 ^ maxD := Nat.pow_le_pow_right (by norm_num) hj
      _ < 2 ^ W := hcap
  rw [hp (d - t - 1) (by omega)] at hLlo
  rw [hp (d - t) (by omega)] at hLhi
  have hpos10 : (0 : Nat) < 10 ^ t := by positivity
  have hL1 : L < 10 ^ (d - t) := by
    have hpow1 : (0 : Nat) < 10 ^ (d - t) := by positivity
    omega
  have he2 : d - t + t = d := by omega
  have hLbound : L * 10 ^ t < 10 ^ d := by
    calc L * 10 ^ t < 10 ^ (d - t) * 10 ^ t := (Nat.mul_lt_mul_right hpos10).mpr hL1
      _ = 10 ^ d := by rw [← pow_add, he2]
  have hsample : generate_sample W t L = L * 10 ^ t := by
    unfold generate_sample
    rw [hp t (by omega)]
    apply Nat.mod_eq_of_lt
    calc L * 10 ^ t < 10 ^ d := hLbound
      _ ≤ 10 ^ maxD := Nat.pow_le_pow_right (by norm_num) hdmax
      _ < 2 ^ W := hcap
  rw [hsample]
  have he3 : d - t - 1 + t = d - 1 := by omega
  have hlow : 10 ^ (d - 1) ≤ L * 10 ^ t := by
    calc (10 : Nat) ^ (d - 1) = 10 ^ (d - t - 1) * 10 ^ t := by rw [← pow_add, he3]
      _ ≤ L * 10 ^ t := Nat.mul_le_mul_right _ hLlo
  refine ⟨rfl, hlow, hLbound, Dvd.intro_left L rfl, ?_⟩
  have hpow0 : (0 : Nat) < 10 ^ (d - 1) := by positivity
  omega

theorem c9_generator_witness : generate_sample 32 1 99 = 99 * 10 ^ 1 :=
  (c9_generator 32 8 3 1 99 (by norm_num) (by norm_num)
    (by unfold sample_draw_valid; decide)).1

/-- C10: the rotr template is a true bitwise right-rotation at both widths: with
r' = r mod W it returns m / 2^r' + (m mod 2^r') * 2^(W - r'), and whenever 2^r'
divides m the rotation by r' is exactly the quotient m / 2^r' — the identity the
Granlund-Montgomery variants rely on. -/
theorem c10_rotr :
    (∀ m r, m < 2 ^ 32 →
      rotr 32 m r = m / 2 ^ (r % 32) + m % 2 ^ (r % 32) * 2 ^ (32 - r % 32)) ∧
    (∀ m r, m < 2 ^ 32 → 2 ^ (r % 32) ∣ m → rotr 32 m (r % 32) = m / 2 ^ (r % 32)) ∧
    (∀ m r, m < 2 ^ 64 →
      rotr 64 m r = m / 2 ^ (r % 64) + m % 2 ^ (r % 64) * 2 ^ (64 - r % 64)) ∧
    (∀ m r, m < 2 ^ 64 → 2 ^ (r % 64) ∣ m → rotr 64 m (r % 64) = m / 2 ^ (r % 64)) := by
  refine ⟨fun m r hm => rotr_eq_arith 32 5 m r (by norm_num) hm, ?_,
    fun m r hm => rotr_eq_arith 64 6 m r (by norm_num) hm, ?_⟩
  · intro m r hm hdvd
    have hsmall : r % 32 % 32 = r % 32 := Nat.mod_eq_of_lt (Nat.mod_lt _ (by norm_num))
    rw [rotr_eq_arith 32 5 m (r % 32) (by norm_num) hm, hsmall,
      Nat.mod_eq_zero_of_dvd hdvd, Nat.zero_mul, Nat.add_zero]
  · intro m r hm hdvd
    have hsmall : r % 64 % 64 = r % 64 := Nat.mod_eq_of_lt (Nat.mod_lt _ (by norm_num))
    rw [rotr_eq_arith 64 6 m (r % 64) (by norm_num) hm, hsmall,
      Nat.mod_eq_zero_of_dvd hdvd, Nat.zero_mul, Nat.add_zero]

theorem c10_rotr_witness : rotr 32 4294967288 35 = 536870911 :=
  (c10_rotr.1 4294967288 35 (by norm_num)).trans (by decide)
